import Mathlib

/-
  Verification of the fashion-search-engine repository against its
  natural-language specification.

  The development shallowly embeds the parts of the code the claims are
  about:

  * `src/database/schemas.py` : the `item.features` table rows and the
    SQL semantics of `upsert_to_features` (INSERT .. ON CONFLICT (sku)
    DO UPDATE SET col = EXCLUDED.col) and, for contrast, the coalescing
    `upsert_to_attributes`.
  * `src/search/query.py` : `Query.parse_filters`, `Query.search_text`
    and `Query.search_image` — the live search path used by
    `src/search/engine.py`.  The SQL pipelines (score CTE, weighting,
    joins, WHERE filters, ORDER BY score DESC, LIMIT k) are modelled
    stage by stage; the pgvector similarity operator `1 - (a <=> b)` is
    kept abstract as a parameter `sim`, and the unspecified order in
    which the database materialises candidate rows is a permutation
    parameter of the executor.
  * `src/search/engine.py` : `Engine.run`.
  * `src/embedding/items.py` : the per-batch payload assembly of the
    `embed` backfill command (text-index alignment, image jobs, the
    sku-keyed payload dict) and the final `upsert_to_features` call.
  * `src/embedding/colors.py` : `CORPUS_COLORS`, the phrase template,
    and `zero_shot_color` (np.argmax over dot products).

  Vectors are lists of rationals; SQL NULL is `Option`; pydantic
  validation failure (building a `ResultItem` with a NULL required
  field) is `Option.none` of the result build.
-/

namespace FSE

/-- Embedding vectors: fixed-length float arrays, modelled over ℚ. -/
abbrev Vec := List ℚ

/-- Dot product of two vectors (numpy `np.dot` on 1-d arrays). -/
def dot (u v : Vec) : ℚ := (List.zipWith (· * ·) u v).sum

/-! ### Database rows (`src/database/schemas.py` DDL) -/

/-- A row of `item.features`: four nullable vector slots keyed by sku. -/
structure FeatureRow where
  sku : String
  clip_image1 : Option Vec
  clip_image2 : Option Vec
  clip_text : Option Vec
  st_text : Option Vec
deriving DecidableEq, Repr

/-- A row of `item.attributes` (the columns the search and backfill
read; `title` is NOT NULL in the DDL, the rest are nullable). -/
structure AttributeRow where
  sku : String
  title : String
  brand : Option String
  category : Option String
  price : Option ℚ
  color : Option String
  url : Option String
  image1 : Option String
  image2 : Option String
  text1 : Option String
  text2 : Option String
  text3 : Option String
  texts : Option String
deriving DecidableEq, Repr

/-- The store state read by a search: `item.features`,
`item.attributes` and the `item.colors` mapping (source, target). -/
structure Store where
  features : List FeatureRow
  attributes : List AttributeRow
  colors : List (String × String)
deriving DecidableEq, Repr

/-! ### `upsert_to_features` (src/database/schemas.py lines 174-252)

The SQL is `INSERT INTO item.features (sku, clip_image1, clip_image2,
clip_text, st_text) VALUES %s ON CONFLICT (sku) DO UPDATE SET
clip_image1 = EXCLUDED.clip_image1, ...` — every vector column is set
to the incoming payload value, `record.get(col)` being NULL for a field
absent from the payload. -/

/-- One element of the `records` argument of `upsert_to_features`:
`record.get` of an absent key is None. -/
structure FeaturePayload where
  sku : String
  clip_image1 : Option Vec
  clip_image2 : Option Vec
  clip_text : Option Vec
  st_text : Option Vec
deriving DecidableEq, Repr

/-- Row-level semantics of one VALUES tuple of `upsert_to_features`:
insert when the sku is new, otherwise DO UPDATE SET col = EXCLUDED.col
on every vector column of the conflicting row. -/
def overwriteRow (r : FeatureRow) (p : FeaturePayload) : FeatureRow :=
  { r with
    clip_image1 := p.clip_image1
    clip_image2 := p.clip_image2
    clip_text := p.clip_text
    st_text := p.st_text }

/-- The row INSERT creates for a payload with a fresh sku. -/
def insertRow (p : FeaturePayload) : FeatureRow :=
  { sku := p.sku
    clip_image1 := p.clip_image1
    clip_image2 := p.clip_image2
    clip_text := p.clip_text
    st_text := p.st_text }

/-- Row-level semantics of one VALUES tuple of `upsert_to_features`:
insert when the sku is new, otherwise update the conflicting row. -/
def applyFeatureUpsert (table : List FeatureRow) (p : FeaturePayload) :
    List FeatureRow :=
  if table.any (fun r => r.sku == p.sku) then
    table.map (fun r => if r.sku == p.sku then overwriteRow r p else r)
  else
    table ++ [insertRow p]

/-- `upsert_to_features`: the payload rows are applied in order (the
batching by `batch_size` and the commit interval only group the same
per-row upserts). -/
def upsert_to_features (table : List FeatureRow) (records : List FeaturePayload) :
    List FeatureRow :=
  records.foldl applyFeatureUpsert table

/-- The row a given sku currently has, if any. -/
def findRow (table : List FeatureRow) (sku : String) : Option FeatureRow :=
  table.find? (fun r => r.sku == sku)

/-! ### Filters (`src/search/filters.py` and `Query.parse_filters`) -/

/-- The pydantic `Filters` record produced by the extractor. -/
structure Filters where
  style_query : Option String
  brand : Option String
  category : Option String
  color : Option String
  clean_query : Option String
  min_price : Option ℚ
  max_price : Option ℚ
deriving DecidableEq, Repr

/-- `LEFT JOIN item.colors AS C ON A.color = C.source_color`: the
`C.target_color` value joined onto an attribute row (None when
`A.color` is NULL or unmapped; `source_color` is the table's primary
key, so the first match is the only one). -/
def targetColor (colors : List (String × String)) (c : Option String) :
    Option String :=
  c.bind (fun cc => (colors.find? (fun p => p.1 == cc)).map (fun p => p.2))

/-- SQL truth value of the conjunction of clauses built by
`Query.parse_filters` on one joined row: `A.brand = %s`,
`A.category = %s`, `C.target_color = %s`, `A.price >= %s`,
`A.price <= %s`, each appended only when the filter field is not None.
A comparison against a NULL column is not true in SQL, so the row is
dropped. -/
def rowPassesFilters (colors : List (String × String))
    (filters : Option Filters) (a : AttributeRow) : Bool :=
  match filters with
  | none => true
  | some fl =>
    (match fl.brand with
     | none => true
     | some b => a.brand == some b) &&
    (match fl.category with
     | none => true
     | some c => a.category == some c) &&
    (match fl.color with
     | none => true
     | some c => targetColor colors a.color == some c) &&
    (match fl.min_price with
     | none => true
     | some m => match a.price with
       | none => false
       | some p => m ≤ p) &&
    (match fl.max_price with
     | none => true
     | some m => match a.price with
       | none => false
       | some p => p ≤ m)

/-! ### Result rows (`ResultItem` in `src/search/query.py`) -/

/-- The pydantic `ResultItem`: every field without `Optional` is
required, so constructing it from a row with a NULL value in such a
field raises a ValidationError.  The build functions below return
`none` in that case. -/
structure ResultItem where
  sku : String
  title : String
  category : String
  color : String
  brand : String
  price : ℚ
  image : String
  text : String
  url : String
  clip_score : Option ℚ
  st_score : Option ℚ
  clip_score1 : Option ℚ
  clip_score2 : Option ℚ
  score : ℚ
deriving DecidableEq, Repr

/-! ### `Query.search_text` (src/search/query.py lines 66-145)

The `scores` CTE selects from `item.features` WHERE
`F.clip_image1 IS NOT NULL AND F.st_text IS NOT NULL` and computes
`clip_score = 1 - (F.clip_image1 <=> qclip)` and
`st_score = 1 - (F.st_text <=> qst)`.  `sim q v` stands for the
pgvector cosine similarity `1 - (v <=> q)`; it is kept abstract because
every claim is about the surrounding pipeline. -/

/-- The `scores` CTE of `search_text`: (sku, clip_score, st_score). -/
def textScores (sim : Vec → Vec → ℚ) (qclip qst : Vec)
    (features : List FeatureRow) : List (String × ℚ × ℚ) :=
  features.filterMap (fun f =>
    match f.clip_image1, f.st_text with
    | some ci, some st => some (f.sku, sim qclip ci, sim qst st)
    | _, _ => none)

/-- A row of the final SELECT of `search_text` before ORDER BY/LIMIT. -/
structure TextCand where
  sku : String
  clip_score : ℚ
  st_score : ℚ
  score : ℚ
  attr : AttributeRow
deriving DecidableEq, Repr

/-- The `weighted` CTE joined with `item.attributes` (INNER JOIN on
sku), left-joined with `item.colors`, and restricted by the
`parse_filters` clauses: `score = clip_score * clip_weight +
st_score * st_weight`. -/
def textCandidates (sim : Vec → Vec → ℚ) (qclip qst : Vec)
    (clip_weight st_weight : ℚ) (store : Store) (filters : Option Filters) :
    List TextCand :=
  (textScores sim qclip qst store.features).flatMap (fun s =>
    store.attributes.filterMap (fun a =>
      if a.sku == s.1 && rowPassesFilters store.colors filters a then
        some { sku := s.1
               clip_score := s.2.1
               st_score := s.2.2
               score := s.2.1 * clip_weight + s.2.2 * st_weight
               attr := a }
      else none))

/-- `ORDER BY W.score DESC` — descending by fused score, and nothing
else: the SQL names no secondary sort key. -/
def textOrder (a b : TextCand) : Prop := b.score ≤ a.score

instance : DecidableRel textOrder := fun a b => by
  unfold textOrder; infer_instance

instance : IsTotal TextCand textOrder :=
  ⟨fun a b => le_total b.score a.score⟩

instance : IsTrans TextCand textOrder :=
  ⟨fun _ _ _ h1 h2 => le_trans h2 h1⟩

/-- The result-building loop (`for result in results: ResultItem(...)`):
pydantic validation makes the whole call raise as soon as one row has a
NULL value in a required field, so the loop yields a list only when
every row builds. -/
def buildAll {α β : Type} (f : α → Option β) : List α → Option (List β)
  | [] => some []
  | a :: as =>
    match f a, buildAll f as with
    | some b, some bs => some (b :: bs)
    | _, _ => none

/-- Building one `ResultItem` from a fetched row of `search_text`
(pydantic validation: `none` when a required field is NULL; pydantic
validates all fields of the constructor call at once, so the binding
order is immaterial). -/
def buildTextItem (c : TextCand) : Option ResultItem := do
  let category ← c.attr.category
  let color ← c.attr.color
  let brand ← c.attr.brand
  let price ← c.attr.price
  let image ← c.attr.image2.or c.attr.image1
  let text ← (c.attr.text1.or c.attr.text2).or c.attr.text3
  let url ← c.attr.url
  pure { sku := c.sku
         title := c.attr.title
         category := category
         color := color
         brand := brand
         price := price
         image := image
         text := text
         url := url
         clip_score := some c.clip_score
         st_score := some c.st_score
         clip_score1 := none
         clip_score2 := none
         score := c.score }

/-- Execution of the tail of `search_text` on the candidate rows as
the database materialised them (`fetched` is some permutation of
`textCandidates` — SQL fixes the multiset, not the order): sort by
score descending (ties keep the materialisation order, which the SQL
leaves unspecified), LIMIT k, build the pydantic items. -/
def searchTextCore (fetched : List TextCand) (k : ℕ) :
    Option (List ResultItem) :=
  buildAll buildTextItem ((List.insertionSort textOrder fetched).take k)

/-- `Query.search_text` on the canonical materialisation order. -/
def search_text (sim : Vec → Vec → ℚ) (qclip qst : Vec) (store : Store)
    (filters : Option Filters) (k : ℕ) (clip_weight st_weight : ℚ) :
    Option (List ResultItem) :=
  searchTextCore (textCandidates sim qclip qst clip_weight st_weight store filters) k

/-- Default `clip_weight` of `Query.search_text`. -/
def clip_weight_default : ℚ := 1/2

/-- Default `st_weight` of `Query.search_text`. -/
def st_weight_default : ℚ := 1/2

/-! ### `Query.search_image` (src/search/query.py lines 147-214)

The `scores` CTE selects from `item.features` with no WHERE clause, so
rows with NULL image slots stay in; `GREATEST` ignores NULL arguments
and is NULL only when both are; `ORDER BY W.score DESC` places NULLs
first (the Postgres default for descending order). -/

/-- Postgres `GREATEST` on two nullable values. -/
def sqlGreatest (a b : Option ℚ) : Option ℚ :=
  match a, b with
  | some x, some y => some (max x y)
  | some x, none => some x
  | none, some y => some y
  | none, none => none

/-- A row of the final SELECT of `search_image`. -/
structure ImageCand where
  sku : String
  clip_score1 : Option ℚ
  clip_score2 : Option ℚ
  score : Option ℚ
  attr : AttributeRow
deriving DecidableEq, Repr

/-- The joined, filtered candidate rows of `search_image`:
`clip_score1/2 = 1 - (F.clip_image1/2 <=> q)` (NULL when the slot is
NULL) and `score = GREATEST(clip_score1, clip_score2)`. -/
def imageCandidates (sim : Vec → Vec → ℚ) (q : Vec) (store : Store)
    (filters : Option Filters) : List ImageCand :=
  store.features.flatMap (fun f =>
    store.attributes.filterMap (fun a =>
      if a.sku == f.sku && rowPassesFilters store.colors filters a then
        some { sku := f.sku
               clip_score1 := f.clip_image1.map (fun v => sim q v)
               clip_score2 := f.clip_image2.map (fun v => sim q v)
               score := sqlGreatest (f.clip_image1.map (fun v => sim q v))
                 (f.clip_image2.map (fun v => sim q v))
               attr := a }
      else none))

/-- Descending order on a nullable score with NULLS FIRST (the
Postgres default for `ORDER BY ... DESC`). -/
def nullsFirst (a b : Option ℚ) : Prop :=
  match a, b with
  | none, _ => True
  | some _, none => False
  | some x, some y => y ≤ x

instance nullsFirstDec : DecidableRel nullsFirst := fun a b =>
  match a, b with
  | none, _ => isTrue trivial
  | some _, none => isFalse id
  | some x, some y => inferInstanceAs (Decidable (y ≤ x))

/-- `ORDER BY W.score DESC` over the nullable fused score. -/
def imageOrder (a b : ImageCand) : Prop :=
  nullsFirst a.score b.score

instance : DecidableRel imageOrder := fun a b =>
  inferInstanceAs (Decidable (nullsFirst a.score b.score))

instance : IsTotal ImageCand imageOrder :=
  ⟨fun a b => by
    unfold imageOrder
    cases ha : a.score with
    | none => exact Or.inl trivial
    | some x =>
      cases hb : b.score with
      | none => exact Or.inr trivial
      | some y => exact le_total y x⟩

instance : IsTrans ImageCand imageOrder :=
  ⟨fun a b c h1 h2 => by
    unfold imageOrder at h1 h2 ⊢
    revert h1 h2
    rcases a.score with _ | x <;> rcases b.score with _ | y <;>
      rcases c.score with _ | z <;> intro h1 h2 <;>
      first
        | trivial
        | exact False.elim h1
        | exact False.elim h2
        | exact le_trans h2 h1⟩

/-- Building one `ResultItem` from a fetched row of `search_image`:
`score` is a required float, so a NULL fused score (both slots NULL)
raises a ValidationError (pydantic validates all fields of the call at
once, so the fused score is checked first here without loss). -/
def buildImageItem (c : ImageCand) : Option ResultItem := do
  let s ← c.score
  let category ← c.attr.category
  let color ← c.attr.color
  let brand ← c.attr.brand
  let price ← c.attr.price
  let image ← c.attr.image2.or c.attr.image1
  let text ← (c.attr.text1.or c.attr.text2).or c.attr.text3
  let url ← c.attr.url
  pure { sku := c.sku
         title := c.attr.title
         category := category
         color := color
         brand := brand
         price := price
         image := image
         text := text
         url := url
         clip_score := none
         st_score := none
         clip_score1 := c.clip_score1
         clip_score2 := c.clip_score2
         score := s }

/-- Execution of the tail of `search_image` on the candidate rows as
materialised by the database. -/
def searchImageCore (fetched : List ImageCand) (k : ℕ) :
    Option (List ResultItem) :=
  buildAll buildImageItem ((List.insertionSort imageOrder fetched).take k)

/-- `Query.search_image` on the canonical materialisation order. -/
def search_image (sim : Vec → Vec → ℚ) (q : Vec) (store : Store)
    (filters : Option Filters) (k : ℕ) : Option (List ResultItem) :=
  searchImageCore (imageCandidates sim q store filters) k

/-! ### `Engine.run` (src/search/engine.py lines 17-37) -/

/-- Python truthiness of the optional query text (`if q_text`). -/
def pyTruthy : Option String → Bool
  | none => false
  | some s => !(s == "")

/-- `Engine.run`, polymorphic in the search result type: the extractor
is called whenever `q_text` is truthy, with no exception handling
around it; its failure therefore propagates out of `run`.  The text
branch searches `filters.clean_query if filters else q_text`. -/
def engineRun {R : Type} (extract : String → Except String Filters)
    (searchT : Option String → Option Filters → R)
    (searchI : Option Filters → R)
    (qText : Option String) (hasImage : Bool) :
    Except String (R × Option Filters) := do
  let filters : Option Filters ←
    match qText with
    | none => pure none
    | some t =>
      if t == "" then pure none
      else do pure (some (← extract t))
  let out :=
    if hasImage then searchI filters
    else
      searchT (match filters with
        | some fl => fl.clean_query
        | none => qText) filters
  pure (out, filters)

/-! ### The backfill pipeline (`src/embedding/items.py`, `embed`)

One batch of the `embed` command: the SQL selects attribute rows whose
LEFT-JOINed feature row is absent or has any NULL vector slot; the
batch then builds a sku-keyed payload dict, embeds all non-empty
`texts` in one batched call per text space, embeds every image file
that exists on disk for the selected skus, and upserts the payloads.
The filesystem is the parameter `fs` (existence of a path), the three
embedders are the parameters `stE`, `clipE` (text) and `imgE` (image
path → vector). -/

/-- One record of the backfill SELECT:
`A.sku, A.image1, A.image2, A.texts`. -/
structure ItemRecord where
  sku : String
  image1 : Option String
  image2 : Option String
  texts : Option String
deriving DecidableEq, Repr

/-- The rows returned by the backfill SELECT (feature row absent, or
some vector slot NULL). -/
def missingRecords (store : Store) : List ItemRecord :=
  store.attributes.filterMap (fun a =>
    let missing :=
      match findRow store.features a.sku with
      | none => true
      | some f =>
        f.clip_image1.isNone || f.clip_image2.isNone ||
          f.clip_text.isNone || f.st_text.isNone
    if missing then
      some { sku := a.sku, image1 := a.image1, image2 := a.image2, texts := a.texts }
    else none)

/-- The `sku_payload` dict: insertion-ordered association of sku to the
payload being assembled (one entry per record; the backfill records
come from a SELECT keyed by the `sku` primary key, so theorems assume
the skus pairwise distinct, under which this list is exactly the
Python dict). -/
abbrev PayloadMap := List (String × FeaturePayload)

/-- The initial payload of one sku. -/
def emptyPayload (sku : String) : FeaturePayload :=
  { sku := sku, clip_image1 := none, clip_image2 := none,
    clip_text := none, st_text := none }

/-- The dict comprehension initialising `sku_payload`. -/
def initPayload (records : List ItemRecord) : PayloadMap :=
  records.map (fun r => (r.sku, emptyPayload r.sku))

/-- `sku_payload[sku][field] = value`: update the entry of one key. -/
def updatePayload (m : PayloadMap) (sku : String)
    (f : FeaturePayload → FeaturePayload) : PayloadMap :=
  m.map (fun p => if p.1 == sku then (p.1, f p.2) else p)

/-- `text_jobs`: one `(sku, texts)` pair per record of the batch. -/
def textJobs (records : List ItemRecord) : List (String × Option String) :=
  records.map (fun r => (r.sku, r.texts))

/-- `text_list`: the truthy texts, in record order. -/
def textList (records : List ItemRecord) : List String :=
  (textJobs records).filterMap (fun j => if pyTruthy j.2 then j.2 else none)

/-- The per-space assignment loop: walk `text_jobs`, and for each
truthy text consume the next embedding of `vecs` and store it under
the record's own sku (`text_idx` is the position within `vecs`).  The
`vecs = []` fallback is unreachable when `vecs` holds one embedding
per truthy text (Python would raise IndexError). -/
def assignTextVecs (set : FeaturePayload → Vec → FeaturePayload) :
    PayloadMap → List (String × Option String) → List Vec → PayloadMap
  | m, [], _ => m
  | m, j :: js, vecs =>
    if pyTruthy j.2 then
      match vecs with
      | [] => m
      | v :: vs => assignTextVecs set (updatePayload m j.1 (fun p => set p v)) js vs
    else assignTextVecs set m js vecs

/-- Field setter for `sku_payload[sku]["st_text"]`. -/
def setStText (p : FeaturePayload) (v : Vec) : FeaturePayload :=
  { p with st_text := some v }

/-- Field setter for `sku_payload[sku]["clip_text"]`. -/
def setClipText (p : FeaturePayload) (v : Vec) : FeaturePayload :=
  { p with clip_text := some v }

/-- The two image slots of a sku directory. -/
inductive ImageSlot where
  | one
  | two
deriving DecidableEq, Repr

/-- `IMAGE_DIR / sku / "image1.jpeg"` (and `image2.jpeg`). -/
def slotPathOf (sku : String) (slot : ImageSlot) : String :=
  match slot with
  | .one => sku ++ "/image1.jpeg"
  | .two => sku ++ "/image2.jpeg"

/-- `image_keys`: per record, the slots whose file exists on disk, in
record order, slot 1 before slot 2 (`image_paths` is the matching list
of paths). -/
def imageKeys (fs : String → Bool) (records : List ItemRecord) :
    List (String × ImageSlot) :=
  records.flatMap (fun r =>
    (if fs (slotPathOf r.sku .one) then [(r.sku, ImageSlot.one)] else []) ++
    (if fs (slotPathOf r.sku .two) then [(r.sku, ImageSlot.two)] else []))

/-- `image_paths`, aligned with `image_keys` by construction. -/
def imagePathsOf (fs : String → Bool) (records : List ItemRecord) : List String :=
  (imageKeys fs records).map (fun j => slotPathOf j.1 j.2)

/-- `sku_payload[sku][f"clip_<key>"] = vector`. -/
def setImageSlot (slot : ImageSlot) (p : FeaturePayload) (v : Vec) : FeaturePayload :=
  match slot with
  | .one => { p with clip_image1 := some v }
  | .two => { p with clip_image2 := some v }

/-- `for (sku, key), vector in zip(image_keys, image_vectors)`. -/
def assignImageVecs : PayloadMap → List (String × ImageSlot) → List Vec → PayloadMap
  | m, [], _ => m
  | m, _ :: _, [] => m
  | m, j :: js, v :: vs =>
    assignImageVecs (updatePayload m j.1 (fun p => setImageSlot j.2 p v)) js vs

/-- Payload assembly of one backfill batch: initialise the dict, embed
the truthy texts once per text space (`st_vectors`,
`clip_text_vectors`), assign them by the running index, embed every
existing image file of the batch and assign by the zipped keys;
`list(sku_payload.values())`. -/
def batchPayloadMap (stE clipE imgE : String → Vec) (fs : String → Bool)
    (records : List ItemRecord) : PayloadMap :=
  assignImageVecs
    (assignTextVecs setClipText
      (assignTextVecs setStText (initPayload records) (textJobs records)
        ((textList records).map stE))
      (textJobs records) ((textList records).map clipE))
    (imageKeys fs records) ((imagePathsOf fs records).map imgE)

def embedBatch (stE clipE imgE : String → Vec) (fs : String → Bool)
    (records : List ItemRecord) : List FeaturePayload :=
  (batchPayloadMap stE clipE imgE fs records).map (fun p => p.2)

/-- One batch of the backfill followed by its `upsert_to_features`. -/
def backfillBatch (stE clipE imgE : String → Vec) (fs : String → Bool)
    (store : Store) (records : List ItemRecord) : List FeatureRow :=
  upsert_to_features store.features (embedBatch stE clipE imgE fs records)

/-- A whole single-batch backfill run: select the incomplete rows,
embed, upsert (a run over more than `batch_size` records partitions
`missingRecords` into chunks, each processed exactly like this). -/
def backfillRun (stE clipE imgE : String → Vec) (fs : String → Bool)
    (store : Store) : List FeatureRow :=
  backfillBatch stE clipE imgE fs store (missingRecords store)

/-! ### Color normalisation (`src/embedding/colors.py`) -/

/-- The fixed color vocabulary, in source order. -/
def CORPUS_COLORS : List String :=
  ["white", "ivory", "light gray", "gray", "dark gray", "black",
   "silver", "gold", "beige", "tan", "brown", "dark brown",
   "light pink", "pink", "hot pink", "red", "dark red", "burgundy",
   "peach", "coral", "orange", "rust",
   "light yellow", "yellow", "mustard",
   "mint", "light green", "green", "olive", "dark green",
   "light blue", "blue", "royal blue", "navy",
   "lavender", "purple", "dark purple",
   "multicolor"]

/-- The phrase template every color is embedded through. -/
def colorQuery (color : String) : String :=
  "A piece of clothing in " ++ color ++ " color."

/-- `corpus_features`: the vocabulary embedded once at module load. -/
def corpus_features (embed : String → Vec) : List Vec :=
  CORPUS_COLORS.map (fun c => embed (colorQuery c))

/-- `np.argmax`: index of the first occurrence of the maximum (0 on an
empty array, where numpy instead raises). -/
def argmaxIdx : List ℚ → ℕ
  | [] => 0
  | [_] => 0
  | x :: y :: ys =>
    let j := argmaxIdx (y :: ys)
    if (y :: ys).getD j 0 > x then j + 1 else 0

/-- `zero_shot_color`: embed the query phrase, dot against every
corpus feature, return the vocabulary entry of the argmax. -/
def zero_shot_color (embed : String → Vec) (color : String) : String × String :=
  let query_features := embed (colorQuery color)
  let sims := (corpus_features embed).map (fun c => dot c query_features)
  (color, CORPUS_COLORS.getD (argmaxIdx sims) "")

/-! ### Shared helper lemmas -/

theorem buildAll_mem {α β : Type} (f : α → Option β) :
    ∀ (l : List α) (l2 : List β), buildAll f l = some l2 →
      ∀ b ∈ l2, ∃ a ∈ l, f a = some b := by
  intro l
  induction l with
  | nil =>
    intro l2 h b hb
    simp [buildAll] at h
    subst h
    simp at hb
  | cons a as ih =>
    intro l2 h b hb
    rcases hfa : f a with _ | b0 <;> rcases hba : buildAll f as with _ | bs <;>
      simp [buildAll, hfa, hba] at h
    subst h
    rcases List.mem_cons.1 hb with hb | hb
    · exact ⟨a, List.mem_cons_self a as, by rw [hfa, hb]⟩
    · obtain ⟨a2, ha2, hfa2⟩ := ih bs hba b hb
      exact ⟨a2, List.mem_cons_of_mem a ha2, hfa2⟩

theorem buildAll_none {α β : Type} (f : α → Option β) :
    ∀ (l : List α) (a : α), a ∈ l → f a = none → buildAll f l = none := by
  intro l
  induction l with
  | nil => intro a ha; simp at ha
  | cons a0 as ih =>
    intro a ha hfa
    rcases List.mem_cons.1 ha with ha | ha
    · subst ha
      simp [buildAll, hfa]
    · rcases hfa0 : f a0 with _ | b0 <;> simp [buildAll, hfa0, ih a ha hfa]

theorem mem_textCandidates {sim : Vec → Vec → ℚ} {qclip qst : Vec}
    {w1 w2 : ℚ} {store : Store} {filters : Option Filters} {c : TextCand}
    (h : c ∈ textCandidates sim qclip qst w1 w2 store filters) :
    ∃ f ∈ store.features, ∃ ci stv,
      f.clip_image1 = some ci ∧ f.st_text = some stv ∧
      ∃ a ∈ store.attributes, a.sku = f.sku ∧
        rowPassesFilters store.colors filters a = true ∧
        c = { sku := f.sku
              clip_score := sim qclip ci
              st_score := sim qst stv
              score := sim qclip ci * w1 + sim qst stv * w2
              attr := a } := by
  unfold textCandidates at h
  obtain ⟨s, hs, hmem⟩ := List.mem_flatMap.1 h
  obtain ⟨sk0, cs0, ss0⟩ := s
  obtain ⟨a, ha, heq⟩ := List.mem_filterMap.1 hmem
  unfold textScores at hs
  obtain ⟨f, hf, heq2⟩ := List.mem_filterMap.1 hs
  rcases hci : f.clip_image1 with _ | ci <;> rw [hci] at heq2 <;>
    rcases hst : f.st_text with _ | stv <;> rw [hst] at heq2 <;>
    simp at heq2
  obtain ⟨hsku, hcs, hss⟩ := heq2
  subst hsku hcs hss
  by_cases hcond : (a.sku == f.sku && rowPassesFilters store.colors filters a) = true
  · rw [Bool.and_eq_true] at hcond
    obtain ⟨hbeq, hpass⟩ := hcond
    simp [hbeq, hpass] at heq
    exact ⟨f, hf, ci, stv, hci, hst, a, ha, eq_of_beq hbeq, hpass, heq.symm⟩
  · rw [Bool.not_eq_true] at hcond
    rw [hcond] at heq
    simp at heq

theorem buildTextItem_fields {c : TextCand} {it : ResultItem}
    (h : buildTextItem c = some it) :
    it.sku = c.sku ∧ it.clip_score = some c.clip_score ∧
    it.st_score = some c.st_score ∧ it.score = c.score := by
  unfold buildTextItem at h
  simp only [bind, Option.bind_eq_some, pure, Option.some.injEq] at h
  obtain ⟨cat, hcat, col, hcol, br, hbr, pr, hpr, im, him, tx, htx, u, hu, hit⟩ := h
  subst hit
  exact ⟨rfl, rfl, rfl, rfl⟩

/-! ### Claim C1 -/

/-- Claim C1 (code_bug): evaluating `upsert_to_features` at the spec's
own scenario — upserting a payload carrying only `clip_text = [1]` for
sku "A" and then a payload carrying only `st_text = [2]` — the second
upsert sets every vector column to the EXCLUDED value, so `clip_text`
becomes NULL instead of being preserved: the upsert is not coalescing
(contrast `upsert_to_attributes`, which wraps every column in
COALESCE). -/
theorem C1_upsert_not_coalescing :
    upsert_to_features []
        [{ sku := "A", clip_image1 := none, clip_image2 := none,
           clip_text := some [1], st_text := none },
         { sku := "A", clip_image1 := none, clip_image2 := none,
           clip_text := none, st_text := some [2] }] =
      [{ sku := "A", clip_image1 := none, clip_image2 := none,
         clip_text := none, st_text := some [2] }] ∧
    ((findRow (upsert_to_features []
        [{ sku := "A", clip_image1 := none, clip_image2 := none,
           clip_text := some [1], st_text := none },
         { sku := "A", clip_image1 := none, clip_image2 := none,
           clip_text := none, st_text := some [2] }]) "A").map
        FeatureRow.clip_text) = some none := by
  constructor <;> rfl

/-! ### Claim C2 -/

/-- A fully populated attribute row used by concrete stores. -/
def mkAttr (sku : String) : AttributeRow :=
  { sku := sku, title := "t", brand := some "b", category := some "c",
    price := some 10, color := some "red", url := some "u",
    image1 := some "i1", image2 := none,
    text1 := some "x", text2 := none, text3 := none, texts := some "tx" }

/-- Store for the C2 counterexample: one item whose `clip_text` and
`clip_image1` vectors disagree, so the two candidate spaces give
different similarities. -/
def storeC2 : Store :=
  { features := [{ sku := "A", clip_image1 := some [1, 0], clip_image2 := none,
                   clip_text := some [0, 1], st_text := some [1] }],
    attributes := [mkAttr "A"],
    colors := [] }

/-- Claim C2, as stated, is false on the live `Query.search_text`: at
this concrete store the returned item's clip similarity is computed
against `clip_image1` (value 1), not against the `clip_text` space
(value 0), and the fused score under the actual default weights
(0.5/0.5) is 1, not the 0.3/0.7 combination over the claimed spaces
(0.7). -/
theorem C2_counterexample :
    ((search_text dot [1, 0] [1] storeC2 none 1
        clip_weight_default st_weight_default).map
      (fun l => l.map (fun it => (it.sku, it.clip_score, it.st_score, it.score)))) =
      some [("A", some 1, some 1, 1)] ∧
    (1 : ℚ) ≠ 3/10 * dot [1, 0] [0, 1] + 7/10 * dot [1] [1] ∧
    some (1 : ℚ) ≠ some (dot [1, 0] [0, 1]) := by
  refine ⟨?_, ?_, ?_⟩
  · norm_num [search_text, searchTextCore, textCandidates, textScores,
      rowPassesFilters, storeC2, mkAttr, dot, clip_weight_default,
      st_weight_default, List.insertionSort, List.orderedInsert,
      buildAll, buildTextItem, Option.or]
  · norm_num [dot]
  · norm_num [dot]

/-- Claim C2 (corrected): for every returned item of the live text
search, the clip-side similarity is computed against the item's
`clip_image1` vector (not `clip_text`) and the semantic similarity
against `st_text`, and the fused score is
`clip_score * clip_weight + st_score * st_weight` — for any weight
pair and any order in which the database materialises the candidate
rows.  The weights are exposed as parameters; the live defaults are
0.5/0.5. -/
theorem C2_text_fusion (sim : Vec → Vec → ℚ) (qclip qst : Vec) (store : Store)
    (filters : Option Filters) (k : ℕ) (w1 w2 : ℚ) (fetched : List TextCand)
    (hperm : fetched.Perm (textCandidates sim qclip qst w1 w2 store filters))
    (items : List ResultItem) (hrun : searchTextCore fetched k = some items) :
    ∀ it ∈ items, ∃ f ∈ store.features, ∃ ci stv,
      f.sku = it.sku ∧ f.clip_image1 = some ci ∧ f.st_text = some stv ∧
      it.clip_score = some (sim qclip ci) ∧ it.st_score = some (sim qst stv) ∧
      it.score = sim qclip ci * w1 + sim qst stv * w2 := by
  intro it hit
  obtain ⟨c, hc, hbuild⟩ := buildAll_mem _ _ _ hrun it hit
  have hc1 : c ∈ List.insertionSort textOrder fetched :=
    (List.take_sublist _ _).subset hc
  have hc2 : c ∈ fetched :=
    (List.perm_insertionSort textOrder fetched).mem_iff.1 hc1
  have hc3 := hperm.mem_iff.1 hc2
  obtain ⟨f, hf, ci, stv, hci, hst, a, ha, hsku, hpass, hceq⟩ :=
    mem_textCandidates hc3
  obtain ⟨hisku, hics, hiss, hisc⟩ := buildTextItem_fields hbuild
  refine ⟨f, hf, ci, stv, ?_, hci, hst, ?_, ?_, ?_⟩
  · rw [hisku, hceq]
  · rw [hics, hceq]
  · rw [hiss, hceq]
  · rw [hisc, hceq]

/-- The single item the C2 witness search returns. -/
def itemC2 : ResultItem :=
  { sku := "A", title := "t", category := "c", color := "red", brand := "b",
    price := 10, image := "i1", text := "x", url := "u",
    clip_score := some 1, st_score := some 1,
    clip_score1 := none, clip_score2 := none, score := 1 }

/-- Witness for C2_text_fusion at the concrete store `storeC2`. -/
theorem C2_text_fusion_witness :
    ∃ f ∈ storeC2.features, ∃ ci stv,
      f.sku = itemC2.sku ∧ f.clip_image1 = some ci ∧ f.st_text = some stv ∧
      itemC2.clip_score = some (dot [1, 0] ci) ∧
      itemC2.st_score = some (dot [1] stv) ∧
      itemC2.score = dot [1, 0] ci * clip_weight_default +
        dot [1] stv * st_weight_default :=
  C2_text_fusion dot [1, 0] [1] storeC2 none 1
    clip_weight_default st_weight_default
    (textCandidates dot [1, 0] [1] clip_weight_default st_weight_default storeC2 none)
    (List.Perm.refl _) [itemC2]
    (by norm_num [searchTextCore, textCandidates, textScores,
      rowPassesFilters, storeC2, mkAttr, dot, clip_weight_default,
      st_weight_default, List.insertionSort, List.orderedInsert,
      buildAll, buildTextItem, Option.or, itemC2])
    itemC2 (List.mem_singleton.2 rfl)

/-! ### Claim C3 -/

/-- Store for the C3 counterexample: the only item has
`clip_text = NULL` but non-NULL `clip_image1` and `st_text`. -/
def storeC3 : Store :=
  { features := [{ sku := "A", clip_image1 := some [1], clip_image2 := none,
                   clip_text := none, st_text := some [1] }],
    attributes := [mkAttr "A"],
    colors := [] }

/-- Claim C3, as stated, is false on the live `Query.search_text`: an
item whose `clip_text` vector is NULL is returned (the query filters on
`clip_image1`/`st_text`, never on `clip_text`). -/
theorem C3_counterexample :
    ((search_text dot [1] [1] storeC3 none 1
        clip_weight_default st_weight_default).map
      (fun l => l.map (fun it => it.sku))) = some ["A"] ∧
    storeC3.features.map FeatureRow.clip_text = [none] := by
  constructor
  · norm_num [search_text, searchTextCore, textCandidates, textScores,
      rowPassesFilters, storeC3, mkAttr, dot, clip_weight_default,
      st_weight_default, List.insertionSort, List.orderedInsert,
      buildAll, buildTextItem, Option.or]
  · rfl

/-- Claim C3 (corrected): the live text search's missing-space
exclusion is on `clip_image1` and `st_text`: an item whose feature row
has `clip_image1` NULL or `st_text` NULL never appears in a text-mode
result (feature rows keyed by the sku primary key), while a NULL
`clip_text` does not exclude an item. -/
theorem C3_missing_space_exclusion (sim : Vec → Vec → ℚ) (qclip qst : Vec)
    (store : Store) (filters : Option Filters) (k : ℕ) (w1 w2 : ℚ)
    (fetched : List TextCand)
    (hperm : fetched.Perm (textCandidates sim qclip qst w1 w2 store filters))
    (items : List ResultItem) (hrun : searchTextCore fetched k = some items)
    (hnd : (store.features.map FeatureRow.sku).Nodup) :
    ∀ f ∈ store.features, (f.clip_image1 = none ∨ f.st_text = none) →
      ∀ it ∈ items, it.sku ≠ f.sku := by
  intro f hf hnull it hit hsk
  obtain ⟨c, hc, hbuild⟩ := buildAll_mem _ _ _ hrun it hit
  have hc2 : c ∈ fetched :=
    (List.perm_insertionSort textOrder fetched).mem_iff.1
      ((List.take_sublist _ _).subset hc)
  obtain ⟨f2, hf2, ci, stv, hci, hst, a, ha, hsku, hpass, hceq⟩ :=
    mem_textCandidates (hperm.mem_iff.1 hc2)
  obtain ⟨hisku, _, _, _⟩ := buildTextItem_fields hbuild
  have hskus : f2.sku = f.sku := by
    rw [← hsk, hisku, hceq]
  have : f2 = f := List.inj_on_of_nodup_map hnd hf2 hf hskus
  subst this
  rcases hnull with hn | hn
  · rw [hci] at hn; exact Option.noConfusion hn
  · rw [hst] at hn; exact Option.noConfusion hn

/-- The feature row of the C3 witness that must never be returned:
item "B" lacks `clip_image1`. -/
def rowC3b : FeatureRow :=
  { sku := "B", clip_image1 := none, clip_image2 := none,
    clip_text := some [1], st_text := some [1] }

/-- Store for the C3 witness: item "A" is complete; item "B" lacks
`clip_image1` and must never be returned. -/
def storeC3w : Store :=
  { features := [{ sku := "A", clip_image1 := some [1], clip_image2 := none,
                   clip_text := some [1], st_text := some [1] },
                 rowC3b],
    attributes := [mkAttr "A", mkAttr "B"],
    colors := [] }

/-- The item the C3 witness search returns. -/
def itemC3 : ResultItem :=
  { sku := "A", title := "t", category := "c", color := "red", brand := "b",
    price := 10, image := "i1", text := "x", url := "u",
    clip_score := some 1, st_score := some 1,
    clip_score1 := none, clip_score2 := none, score := 1 }

/-- Witness for C3_missing_space_exclusion at the concrete store
`storeC3w`. -/
theorem C3_missing_space_exclusion_witness :
    itemC3.sku ≠ rowC3b.sku :=
  C3_missing_space_exclusion dot [1] [1] storeC3w none 1
    clip_weight_default st_weight_default
    (textCandidates dot [1] [1] clip_weight_default st_weight_default storeC3w none)
    (List.Perm.refl _) [itemC3]
    (by norm_num [searchTextCore, textCandidates, textScores,
      rowPassesFilters, storeC3w, mkAttr, dot, clip_weight_default,
      st_weight_default, List.insertionSort, List.orderedInsert,
      buildAll, buildTextItem, Option.or, itemC3])
    (by simp [storeC3w, rowC3b])
    rowC3b
    (by simp [storeC3w]) (Or.inl rfl) itemC3 (List.mem_singleton.2 rfl)

/-! ### Claim C4 -/

theorem mem_imageCandidates {sim : Vec → Vec → ℚ} {q : Vec} {store : Store}
    {filters : Option Filters} {c : ImageCand}
    (h : c ∈ imageCandidates sim q store filters) :
    ∃ f ∈ store.features, ∃ a ∈ store.attributes, a.sku = f.sku ∧
      rowPassesFilters store.colors filters a = true ∧
      c = { sku := f.sku
            clip_score1 := f.clip_image1.map (fun v => sim q v)
            clip_score2 := f.clip_image2.map (fun v => sim q v)
            score := sqlGreatest (f.clip_image1.map (fun v => sim q v))
              (f.clip_image2.map (fun v => sim q v))
            attr := a } := by
  unfold imageCandidates at h
  obtain ⟨f, hf, hmem⟩ := List.mem_flatMap.1 h
  obtain ⟨a, ha, heq⟩ := List.mem_filterMap.1 hmem
  by_cases hcond : (a.sku == f.sku && rowPassesFilters store.colors filters a) = true
  · rw [Bool.and_eq_true] at hcond
    obtain ⟨hbeq, hpass⟩ := hcond
    simp [hbeq, hpass] at heq
    exact ⟨f, hf, a, ha, eq_of_beq hbeq, hpass, heq.symm⟩
  · rw [Bool.not_eq_true] at hcond
    rw [hcond] at heq
    simp at heq

theorem buildImageItem_fields {c : ImageCand} {it : ResultItem}
    (h : buildImageItem c = some it) :
    it.sku = c.sku ∧ it.clip_score1 = c.clip_score1 ∧
    it.clip_score2 = c.clip_score2 ∧ c.score = some it.score := by
  unfold buildImageItem at h
  simp only [bind, Option.bind_eq_some, pure, Option.some.injEq] at h
  obtain ⟨s, hsc, cat, hcat, col, hcol, br, hbr, pr, hpr, im, him, tx, htx,
    u, hu, hit⟩ := h
  subst hit
  exact ⟨rfl, rfl, rfl, hsc⟩

/-- Claim C4 (confirmed): for every item returned by `search_image`,
the fused score is `GREATEST` over the two image-slot similarities —
`max` of the two when both slots are present, and exactly the non-NULL
slot's similarity when the other slot is NULL (no penalty for a
missing second image). -/
theorem C4_image_max_fusion (sim : Vec → Vec → ℚ) (q : Vec) (store : Store)
    (filters : Option Filters) (k : ℕ) (fetched : List ImageCand)
    (hperm : fetched.Perm (imageCandidates sim q store filters))
    (items : List ResultItem) (hrun : searchImageCore fetched k = some items) :
    ∀ it ∈ items, ∃ f ∈ store.features, f.sku = it.sku ∧
      (∀ v1 v2, f.clip_image1 = some v1 → f.clip_image2 = some v2 →
        it.score = max (sim q v1) (sim q v2)) ∧
      (∀ v1, f.clip_image1 = some v1 → f.clip_image2 = none →
        it.score = sim q v1) ∧
      (∀ v2, f.clip_image1 = none → f.clip_image2 = some v2 →
        it.score = sim q v2) := by
  intro it hit
  obtain ⟨c, hc, hbuild⟩ := buildAll_mem _ _ _ hrun it hit
  have hc2 : c ∈ fetched :=
    (List.perm_insertionSort imageOrder fetched).mem_iff.1
      ((List.take_sublist _ _).subset hc)
  obtain ⟨f, hf, a, ha, hsku, hpass, hceq⟩ :=
    mem_imageCandidates (hperm.mem_iff.1 hc2)
  obtain ⟨hisku, _, _, hscore⟩ := buildImageItem_fields hbuild
  refine ⟨f, hf, by rw [hisku, hceq], ?_, ?_, ?_⟩
  · intro v1 v2 h1 h2
    rw [hceq] at hscore
    simp only [h1, h2, Option.map_some, sqlGreatest] at hscore
    exact (Option.some.injEq _ _ ▸ hscore).symm
  · intro v1 h1 h2
    rw [hceq] at hscore
    simp only [h1, h2, Option.map_some, Option.map_none, sqlGreatest] at hscore
    exact (Option.some.injEq _ _ ▸ hscore).symm
  · intro v2 h1 h2
    rw [hceq] at hscore
    simp only [h1, h2, Option.map_some, Option.map_none, sqlGreatest] at hscore
    exact (Option.some.injEq _ _ ▸ hscore).symm

/-- Store for the C4 witness: the only item has a packshot slot only
(`clip_image2` NULL). -/
def storeC4 : Store :=
  { features := [{ sku := "A", clip_image1 := some [3], clip_image2 := none,
                   clip_text := none, st_text := none }],
    attributes := [mkAttr "A"],
    colors := [] }

/-- The item the C4 witness search returns: its fused score equals the
similarity of the single present slot. -/
def itemC4 : ResultItem :=
  { sku := "A", title := "t", category := "c", color := "red", brand := "b",
    price := 10, image := "i1", text := "x", url := "u",
    clip_score := none, st_score := none,
    clip_score1 := some 3, clip_score2 := none, score := 3 }

/-- Witness for C4_image_max_fusion at the concrete store `storeC4`. -/
theorem C4_image_max_fusion_witness :
    ∃ f ∈ storeC4.features, f.sku = itemC4.sku ∧
      (∀ v1 v2, f.clip_image1 = some v1 → f.clip_image2 = some v2 →
        itemC4.score = max (dot [1] v1) (dot [1] v2)) ∧
      (∀ v1, f.clip_image1 = some v1 → f.clip_image2 = none →
        itemC4.score = dot [1] v1) ∧
      (∀ v2, f.clip_image1 = none → f.clip_image2 = some v2 →
        itemC4.score = dot [1] v2) :=
  C4_image_max_fusion dot [1] storeC4 none 1
    (imageCandidates dot [1] storeC4 none) (List.Perm.refl _) [itemC4]
    (by norm_num [searchImageCore, imageCandidates, sqlGreatest,
      rowPassesFilters, storeC4, mkAttr, dot,
      List.insertionSort, List.orderedInsert,
      buildAll, buildImageItem, Option.or, itemC4])
    itemC4 (List.mem_singleton.2 rfl)

/-! ### Claim C6 -/

/-- Store for the C6 counterexample: two items with identical vectors,
hence exactly tied fused scores; the features table lists "B" first. -/
def storeC6 : Store :=
  { features := [{ sku := "B", clip_image1 := some [1], clip_image2 := none,
                   clip_text := some [1], st_text := some [1] },
                 { sku := "A", clip_image1 := some [1], clip_image2 := none,
                   clip_text := some [1], st_text := some [1] }],
    attributes := [mkAttr "B", mkAttr "A"],
    colors := [] }

/-- Claim C6, as stated, is false: the query's ORDER BY has no
secondary sort key, so the SQL only guarantees a score-descending
permutation of the candidates.  Both executions below are valid
materialisations of the same unchanged store for identical calls: one
returns ["B", "A"] — tied items not in ascending sku order — and the
other ["A", "B"], a different ordering. -/
theorem C6_counterexample :
    ((searchTextCore (textCandidates dot [1] [1] 1 0 storeC6 none) 2).map
      (fun l => l.map (fun it => it.sku))) = some ["B", "A"] ∧
    ((searchTextCore ((textCandidates dot [1] [1] 1 0 storeC6 none).reverse) 2).map
      (fun l => l.map (fun it => it.sku))) = some ["A", "B"] ∧
    ((textCandidates dot [1] [1] 1 0 storeC6 none).reverse).Perm
      (textCandidates dot [1] [1] 1 0 storeC6 none) ∧
    some ["B", "A"] ≠ some ["A", "B"] := by
  refine ⟨?_, ?_, List.reverse_perm _, by decide⟩
  · norm_num [searchTextCore, textCandidates, textScores,
      rowPassesFilters, storeC6, mkAttr, dot, textOrder,
      List.insertionSort, List.orderedInsert,
      buildAll, buildTextItem, Option.or]
  · norm_num [searchTextCore, textCandidates, textScores,
      rowPassesFilters, storeC6, mkAttr, dot, textOrder,
      List.insertionSort, List.orderedInsert,
      buildAll, buildTextItem, Option.or]

theorem sorted_eq_of_perm_of_distinct :
    ∀ (l1 l2 : List TextCand), l1.Perm l2 → List.Sorted textOrder l1 →
      List.Sorted textOrder l2 →
      l1.Pairwise (fun a b => a.score ≠ b.score) → l1 = l2 := by
  intro l1
  induction l1 with
  | nil =>
    intro l2 hp _ _ _
    exact (hp.symm.eq_nil).symm
  | cons a t1 ih =>
    intro l2 hp hs1 hs2 hd
    cases l2 with
    | nil => exact absurd hp.eq_nil (by simp)
    | cons b t2 =>
      have hab : a = b := by
        rcases List.mem_cons.1 (hp.mem_iff.2 (List.mem_cons_self b t2)) with h | h
        · exact h.symm
        · have h1 : textOrder a b := List.rel_of_pairwise_cons hs1 h
          rcases List.mem_cons.1 (hp.symm.mem_iff.2 (List.mem_cons_self a t1)) with h2 | h2
          · exact h2
          · have h3 : textOrder b a := List.rel_of_pairwise_cons hs2 h2
            have hneq : a.score ≠ b.score := List.rel_of_pairwise_cons hd h
            exact absurd (le_antisymm h3 h1) hneq
      subst hab
      have := ih t2 hp.cons_inv hs1.of_cons hs2.of_cons hd.of_cons
      rw [this]

/-- Claim C6 (corrected): the query guarantees only the fused-score
descending order.  When the candidate scores are pairwise distinct,
two identical calls return identical lists for any two materialisation
orders of the same unchanged store; with tied scores neither the
ordering across calls nor an ascending-sku tie order is guaranteed
(there is no secondary sort key). -/
theorem C6_determinism (sim : Vec → Vec → ℚ) (qclip qst : Vec) (store : Store)
    (filters : Option Filters) (k : ℕ) (w1 w2 : ℚ)
    (σ1 σ2 : List TextCand)
    (h1 : σ1.Perm (textCandidates sim qclip qst w1 w2 store filters))
    (h2 : σ2.Perm (textCandidates sim qclip qst w1 w2 store filters))
    (hd : (textCandidates sim qclip qst w1 w2 store filters).Pairwise
      (fun a b => a.score ≠ b.score)) :
    searchTextCore σ1 k = searchTextCore σ2 k := by
  have e : List.insertionSort textOrder σ1 = List.insertionSort textOrder σ2 := by
    apply sorted_eq_of_perm_of_distinct
    · exact ((List.perm_insertionSort _ σ1).trans h1).trans
        (((List.perm_insertionSort _ σ2).trans h2).symm)
    · exact List.sorted_insertionSort textOrder σ1
    · exact List.sorted_insertionSort textOrder σ2
    · exact (List.Perm.pairwise_iff (fun h => h.symm)
        ((List.perm_insertionSort _ σ1).trans h1)).2 hd
  unfold searchTextCore
  rw [e]

/-- Store for the C6 witness: two items with distinct similarity
values, hence distinct fused scores. -/
def storeC6w : Store :=
  { features := [{ sku := "A", clip_image1 := some [2], clip_image2 := none,
                   clip_text := some [2], st_text := some [1] },
                 { sku := "B", clip_image1 := some [1], clip_image2 := none,
                   clip_text := some [1], st_text := some [1] }],
    attributes := [mkAttr "A", mkAttr "B"],
    colors := [] }

/-- Witness for C6_determinism at the concrete store `storeC6w`. -/
theorem C6_determinism_witness :
    searchTextCore (textCandidates dot [1] [1] 1 0 storeC6w none) 2 =
      searchTextCore ((textCandidates dot [1] [1] 1 0 storeC6w none).reverse) 2 :=
  C6_determinism dot [1] [1] storeC6w none 2 1 0
    (textCandidates dot [1] [1] 1 0 storeC6w none)
    ((textCandidates dot [1] [1] 1 0 storeC6w none).reverse)
    (List.Perm.refl _) (List.reverse_perm _)
    (by
      have h : textCandidates dot [1] [1] 1 0 storeC6w none =
          [{ sku := "A", clip_score := 2, st_score := 1, score := 2, attr := mkAttr "A" },
           { sku := "B", clip_score := 1, st_score := 1, score := 1, attr := mkAttr "B" }] := by
        simp [textCandidates, textScores, rowPassesFilters, storeC6w,
          mkAttr, dot, List.filterMap_cons, List.filterMap_nil,
          List.flatMap_cons, List.flatMap_nil]
      rw [h]
      norm_num [List.pairwise_cons])

/-! ### Claim C7 -/

/-- An extractor that always fails (e.g. the OpenAI call raising). -/
def failExtract : String → Except String Filters :=
  fun _ => Except.error "boom"

/-- Claim C7, as stated, is false: `Engine.run` wraps no exception
handling around `self.extractor(q_text)`, so an extractor failure on a
truthy query text propagates and the whole call fails instead of
proceeding with no filters. -/
theorem C7_counterexample :
    engineRun failExtract (fun _ _ => (0 : ℕ)) (fun _ => 0) (some "dress") false =
      Except.error "boom" ∧
    (Except.error "boom" : Except String (ℕ × Option Filters)) ≠
      Except.ok (0, none) := by
  exact ⟨rfl, fun h => Except.noConfusion h⟩

/-- Claim C7 (corrected): when the query text is truthy and the
extractor fails, `Engine.run` fails with the extractor's error — the
failure is not degraded to "no filters". -/
theorem C7_extractor_failure_propagates {R : Type}
    (extract : String → Except String Filters)
    (searchT : Option String → Option Filters → R)
    (searchI : Option Filters → R) (t e : String) (hasImage : Bool)
    (ht : (t == "") = false) (hx : extract t = Except.error e) :
    engineRun extract searchT searchI (some t) hasImage = Except.error e := by
  simp [engineRun, ht, hx, bind, Except.bind]

/-- Witness for C7_extractor_failure_propagates at a concrete failing
extractor. -/
theorem C7_extractor_failure_propagates_witness :
    engineRun failExtract (fun _ _ => (0 : ℕ)) (fun _ => 0) (some "dress") false =
      Except.error "boom" :=
  C7_extractor_failure_propagates failExtract (fun _ _ => (0 : ℕ)) (fun _ => 0)
    "dress" "boom" false (by decide) rfl

/-! ### Claim C9 -/

/-- The candidate row produced by a feature row with both image slots
NULL. -/
def nullImageCand (sku : String) (a : AttributeRow) : ImageCand :=
  { sku := sku, clip_score1 := none, clip_score2 := none,
    score := none, attr := a }

theorem buildImageItem_score_none {c : ImageCand} (h : c.score = none) :
    buildImageItem c = none := by
  unfold buildImageItem
  rw [h]
  rfl

theorem head_score_none_of_sorted {l : List ImageCand}
    (hs : List.Sorted imageOrder l) {c : ImageCand} (hc : c ∈ l)
    (hnone : c.score = none) :
    ∃ c0 t, l = c0 :: t ∧ c0.score = none := by
  cases l with
  | nil => simp at hc
  | cons c0 t =>
    refine ⟨c0, t, rfl, ?_⟩
    rcases List.mem_cons.1 hc with h | h
    · rw [← h]; exact hnone
    · rcases h0 : c0.score with _ | s0
      · rfl
      · have horder : imageOrder c0 c := List.rel_of_pairwise_cons hs h
        unfold imageOrder at horder
        rw [h0, hnone] at horder
        exact absurd horder (by simp [nullsFirst])

/-- Claim C9 (confirmed): the image-search scan keeps rows whose image
slots are NULL; a row with both `clip_image1` and `clip_image2` NULL
gets a NULL fused score, sorts ahead of every numerically scored row
(DESC is NULLS FIRST), and — since `ResultItem.score` is a required
float — the whole search call fails for any k ≥ 1 instead of
returning results. -/
theorem C9_null_rows_break_image_search (sim : Vec → Vec → ℚ) (q : Vec)
    (store : Store) (filters : Option Filters)
    (f : FeatureRow) (hf : f ∈ store.features)
    (h1 : f.clip_image1 = none) (h2 : f.clip_image2 = none)
    (a : AttributeRow) (ha : a ∈ store.attributes) (hsku : a.sku = f.sku)
    (hpass : rowPassesFilters store.colors filters a = true)
    (k : ℕ) (hk : 1 ≤ k) (σ : List ImageCand)
    (hperm : σ.Perm (imageCandidates sim q store filters)) :
    (∃ c ∈ imageCandidates sim q store filters, c.sku = f.sku ∧ c.score = none) ∧
    (List.insertionSort imageOrder σ).Pairwise
      (fun x y => x.score.isSome = true → y.score.isSome = true) ∧
    searchImageCore σ k = none := by
  have hcand : nullImageCand f.sku a ∈ imageCandidates sim q store filters := by
    unfold imageCandidates
    refine List.mem_flatMap.2 ⟨f, hf, List.mem_filterMap.2 ⟨a, ha, ?_⟩⟩
    have hbeq : (a.sku == f.sku) = true := by rw [hsku]; exact beq_self_eq_true _
    simp [hbeq, hpass, h1, h2, sqlGreatest, nullImageCand]
  refine ⟨⟨_, hcand, rfl, rfl⟩, ?_, ?_⟩
  · refine (List.sorted_insertionSort imageOrder σ).imp ?_
    intro x y hxy hx
    unfold imageOrder at hxy
    rcases hy : y.score with _ | sy
    · rcases hxs : x.score with _ | sx
      · rw [hxs] at hx; simp at hx
      · rw [hxs, hy] at hxy; exact absurd hxy (by simp [nullsFirst])
    · rfl
  · have hmem : nullImageCand f.sku a ∈ List.insertionSort imageOrder σ :=
      (List.perm_insertionSort imageOrder σ).mem_iff.2 (hperm.mem_iff.2 hcand)
    obtain ⟨c0, t, hsplit, hc0⟩ :=
      head_score_none_of_sorted (List.sorted_insertionSort imageOrder σ) hmem rfl
    unfold searchImageCore
    rw [hsplit]
    cases k with
    | zero => exact absurd hk (by norm_num)
    | succ k0 =>
      rw [List.take_succ_cons]
      exact buildAll_none _ _ c0 (List.mem_cons_self _ _)
        (buildImageItem_score_none hc0)

/-- Store for the C9 witness: the only item has both image slots
NULL. -/
def storeC9 : Store :=
  { features := [{ sku := "A", clip_image1 := none, clip_image2 := none,
                   clip_text := some [1], st_text := some [1] }],
    attributes := [mkAttr "A"],
    colors := [] }

/-- The all-NULL feature row of the C9 witness store. -/
def rowC9 : FeatureRow :=
  { sku := "A", clip_image1 := none, clip_image2 := none,
    clip_text := some [1], st_text := some [1] }

/-- Witness for C9_null_rows_break_image_search at the concrete store
`storeC9`. -/
theorem C9_null_rows_break_image_search_witness :
    (∃ c ∈ imageCandidates dot [1] storeC9 none, c.sku = rowC9.sku ∧
      c.score = none) ∧
    (List.insertionSort imageOrder (imageCandidates dot [1] storeC9 none)).Pairwise
      (fun x y => x.score.isSome = true → y.score.isSome = true) ∧
    searchImageCore (imageCandidates dot [1] storeC9 none) 1 = none :=
  C9_null_rows_break_image_search dot [1] storeC9 none rowC9
    (by simp [storeC9, rowC9]) rfl rfl (mkAttr "A") (by simp [storeC9]) rfl
    rfl 1 (by norm_num) (imageCandidates dot [1] storeC9 none) (List.Perm.refl _)

/-! ### Claim C8 -/

/-- Componentwise difference of two vectors. -/
def vsub (u v : Vec) : Vec := List.zipWith (· - ·) u v

theorem dot_self_nonneg : ∀ w : Vec, 0 ≤ dot w w := by
  intro w
  induction w with
  | nil => simp [dot]
  | cons x xs ih =>
    have : dot (x :: xs) (x :: xs) = x * x + dot xs xs := by
      simp [dot]
    rw [this]
    have hx : 0 ≤ x * x := mul_self_nonneg x
    linarith

theorem dot_vsub_expand : ∀ (u v : Vec), u.length = v.length →
    dot (vsub u v) (vsub u v) = dot u u - 2 * dot u v + dot v v := by
  intro u
  induction u with
  | nil =>
    intro v hlen
    have : v = [] := List.eq_nil_of_length_eq_zero hlen.symm
    subst this
    simp [dot, vsub]
  | cons x xs ih =>
    intro v hlen
    cases v with
    | nil => simp at hlen
    | cons y ys =>
      have hlen2 : xs.length = ys.length := by
        simpa using hlen
      have e1 : dot (vsub (x :: xs) (y :: ys)) (vsub (x :: xs) (y :: ys)) =
          (x - y) * (x - y) + dot (vsub xs ys) (vsub xs ys) := by
        simp [dot, vsub]
      have e2 : dot (x :: xs) (x :: xs) = x * x + dot xs xs := by simp [dot]
      have e3 : dot (x :: xs) (y :: ys) = x * y + dot xs ys := by simp [dot]
      have e4 : dot (y :: ys) (y :: ys) = y * y + dot ys ys := by simp [dot]
      rw [e1, e2, e3, e4, ih ys hlen2]
      ring

theorem eq_of_dot_vsub_zero : ∀ (u v : Vec), u.length = v.length →
    dot (vsub u v) (vsub u v) = 0 → u = v := by
  intro u
  induction u with
  | nil =>
    intro v hlen _
    exact (List.eq_nil_of_length_eq_zero hlen.symm).symm
  | cons x xs ih =>
    intro v hlen hz
    cases v with
    | nil => simp at hlen
    | cons y ys =>
      have hlen2 : xs.length = ys.length := by simpa using hlen
      have e1 : dot (vsub (x :: xs) (y :: ys)) (vsub (x :: xs) (y :: ys)) =
          (x - y) * (x - y) + dot (vsub xs ys) (vsub xs ys) := by
        simp [dot, vsub]
      rw [e1] at hz
      have h1 : 0 ≤ (x - y) * (x - y) := mul_self_nonneg _
      have h2 : 0 ≤ dot (vsub xs ys) (vsub xs ys) := dot_self_nonneg _
      have hxy : (x - y) * (x - y) = 0 := by linarith
      have hrest : dot (vsub xs ys) (vsub xs ys) = 0 := by linarith
      have : x = y := by
        have := mul_self_eq_zero.1 hxy
        linarith
      rw [this, ih ys hlen2 hrest]

/-- Strict Cauchy-Schwarz for distinct unit vectors: the dot product of
two different L2-normalised vectors is below 1. -/
theorem dot_lt_one_of_ne (u v : Vec) (hlen : u.length = v.length)
    (hu : dot u u = 1) (hv : dot v v = 1) (hne : u ≠ v) : dot u v < 1 := by
  have hexp := dot_vsub_expand u v hlen
  have hnn := dot_self_nonneg (vsub u v)
  have hle : dot u v ≤ 1 := by
    rw [hexp, hu, hv] at hnn
    linarith
  rcases lt_or_eq_of_le hle with h | h
  · exact h
  · exfalso
    apply hne
    apply eq_of_dot_vsub_zero u v hlen
    rw [hexp, hu, hv, h]
    ring

theorem argmaxIdx_lt : ∀ l : List ℚ, l ≠ [] → argmaxIdx l < l.length := by
  intro l
  induction l with
  | nil => intro h; exact absurd rfl h
  | cons x xs ih =>
    intro _
    cases xs with
    | nil => simp [argmaxIdx]
    | cons y ys =>
      simp only [argmaxIdx]
      split
      · have := ih (by simp)
        simpa using Nat.succ_lt_succ this
      · simp

/-- `np.argmax` characterisation: the argmax is the index whose value
dominates every entry and strictly dominates every earlier entry. -/
theorem argmaxIdx_eq : ∀ (l : List ℚ) (i : ℕ), i < l.length →
    (∀ j, j < l.length → l.getD j 0 ≤ l.getD i 0) →
    (∀ j, j < i → l.getD j 0 < l.getD i 0) →
    argmaxIdx l = i := by
  intro l
  induction l with
  | nil => intro i hi; simp at hi
  | cons x xs ih =>
    intro i hi hmax hfirst
    cases xs with
    | nil =>
      simp at hi
      subst hi
      rfl
    | cons y ys =>
      cases i with
      | zero =>
        have hjlt : argmaxIdx (y :: ys) < (y :: ys).length :=
          argmaxIdx_lt (y :: ys) (by simp)
        have hle : (y :: ys).getD (argmaxIdx (y :: ys)) 0 ≤ x := by
          have := hmax (argmaxIdx (y :: ys) + 1) (by simpa using hjlt)
          simpa using this
        simp only [argmaxIdx]
        rw [if_neg (not_lt.2 hle)]
      | succ i0 =>
        have hi0 : i0 < (y :: ys).length := by simpa using hi
        have hmax0 : ∀ j, j < (y :: ys).length →
            (y :: ys).getD j 0 ≤ (y :: ys).getD i0 0 := by
          intro j hj
          have := hmax (j + 1) (by simpa using hj)
          simpa using this
        have hfirst0 : ∀ j, j < i0 →
            (y :: ys).getD j 0 < (y :: ys).getD i0 0 := by
          intro j hj
          have := hfirst (j + 1) (Nat.succ_lt_succ hj)
          simpa using this
        have harg : argmaxIdx (y :: ys) = i0 := ih i0 hi0 hmax0 hfirst0
        have hgt : (y :: ys).getD (argmaxIdx (y :: ys)) 0 > x := by
          rw [harg]
          have := hfirst 0 (Nat.succ_pos i0)
          simpa using this
        simp only [argmaxIdx]
        rw [if_pos hgt, harg]

/-- A degenerate but deterministic, L2-normalising embedder: every
string maps to the unit vector [1]. -/
def constEmbed : String → Vec := fun _ => [1]

theorem argmaxIdx_replicate : ∀ (n : ℕ) (q : ℚ),
    argmaxIdx (List.replicate n q) = 0 := by
  intro n
  induction n with
  | zero => intro q; rfl
  | succ m ih =>
    intro q
    cases m with
    | zero => rfl
    | succ m0 =>
      have hrep : List.replicate (m0 + 1 + 1) q = q :: q :: List.replicate m0 q := by
        simp [List.replicate]
      rw [hrep]
      simp only [argmaxIdx]
      have h0 : argmaxIdx (q :: List.replicate m0 q) = 0 := by
        have := ih q
        rw [show List.replicate (m0 + 1) q = q :: List.replicate m0 q by
          simp [List.replicate]] at this
        exact this
      rw [if_neg]
      rw [h0]
      simp

/-- Claim C8, as stated, is false for an arbitrary deterministic,
L2-normalising embedder: a constant unit embedder makes every
vocabulary entry tie at similarity 1, the tie resolves to the first
occurrence in vocabulary order, and classifying the vocabulary color
"gray" returns "white" instead of itself. -/
theorem C8_counterexample :
    zero_shot_color constEmbed "gray" = ("gray", "white") ∧
    ("gray", "white") ≠ ("gray", "gray") ∧
    (∀ s, dot (constEmbed s) (constEmbed s) = 1) ∧
    "gray" ∈ CORPUS_COLORS := by
  refine ⟨?_, by decide, fun s => by norm_num [constEmbed, dot], by decide⟩
  have hd : dot [1] [1] = (1 : ℚ) := by norm_num [dot]
  have hsim : (corpus_features constEmbed).map
      (fun c => dot c (constEmbed (colorQuery "gray"))) =
      List.replicate CORPUS_COLORS.length 1 := by
    unfold corpus_features constEmbed
    rw [List.map_map]
    have : ((fun c => dot c [1]) ∘ fun c => (fun _ => ([1] : Vec)) (colorQuery c)) =
        fun _ => (1 : ℚ) := by
      funext c
      simp [dot]
    rw [this, List.map_const']
  simp only [zero_shot_color]
  rw [hsim, argmaxIdx_replicate]
  rfl

/-- Claim C8 (corrected): classification of a vocabulary color returns
that color itself for every deterministic, L2-normalising embedder of
a fixed output dimension that maps the vocabulary phrases to pairwise
distinct vectors; when vocabulary phrases collide, the tie between
similarity-1 entries resolves to the first occurrence in vocabulary
order (argmax returns the first maximum). -/
theorem C8_color_roundtrip (embed : String → Vec)
    (hnorm : ∀ s, dot (embed s) (embed s) = 1)
    (hlen : ∀ s1 s2, (embed s1).length = (embed s2).length)
    (hinj : (corpus_features embed).Nodup)
    (c : String) (hc : c ∈ CORPUS_COLORS) :
    zero_shot_color embed c = (c, c) := by
  obtain ⟨⟨i, hilt⟩, hgit⟩ := List.mem_iff_get.1 hc
  have hflen : (corpus_features embed).length = CORPUS_COLORS.length := by
    simp [corpus_features]
  have hslen : ((corpus_features embed).map
      (fun cf => dot cf (embed (colorQuery c)))).length = CORPUS_COLORS.length := by
    simp [hflen]
  have hval : ∀ j, (hj : j < CORPUS_COLORS.length) →
      ((corpus_features embed).map
        (fun cf => dot cf (embed (colorQuery c)))).getD j 0 =
      dot (embed (colorQuery (CORPUS_COLORS.get ⟨j, hj⟩))) (embed (colorQuery c)) := by
    intro j hj
    rw [List.getD_eq_getElem _ _ (by rw [hslen]; exact hj)]
    simp [corpus_features]
  have hqi : CORPUS_COLORS.get ⟨i, hilt⟩ = c := hgit
  have hge : ∀ j, (hj : j < CORPUS_COLORS.length) →
      (corpus_features embed).get ⟨j, by rw [hflen]; exact hj⟩ =
      embed (colorQuery (CORPUS_COLORS.get ⟨j, hj⟩)) := by
    intro j hj
    simp [corpus_features]
  have harg : argmaxIdx ((corpus_features embed).map
      (fun cf => dot cf (embed (colorQuery c)))) = i := by
    apply argmaxIdx_eq
    · rw [hslen]; exact hilt
    · intro j hj
      rw [hslen] at hj
      rw [hval j hj, hval i hilt, hqi, hnorm]
      by_cases hne : embed (colorQuery (CORPUS_COLORS.get ⟨j, hj⟩)) =
          embed (colorQuery c)
      · rw [hne, hnorm]
      · exact le_of_lt (dot_lt_one_of_ne _ _ (hlen _ _) (hnorm _) (hnorm _) hne)
    · intro j hj
      have hjlt : j < CORPUS_COLORS.length := lt_trans hj hilt
      rw [hval j hjlt, hval i hilt, hqi, hnorm]
      have hne : embed (colorQuery (CORPUS_COLORS.get ⟨j, hjlt⟩)) ≠
          embed (colorQuery c) := by
        intro heq
        have e1 : (corpus_features embed).get ⟨j, by rw [hflen]; exact hjlt⟩ =
            (corpus_features embed).get ⟨i, by rw [hflen]; exact hilt⟩ := by
          rw [hge j hjlt, hge i hilt, hqi, heq]
        have := (hinj.get_inj_iff).1 e1
        have : j = i := congrArg Fin.val this
        omega
      exact dot_lt_one_of_ne _ _ (hlen _ _) (hnorm _) (hnorm _) hne
  simp only [zero_shot_color]
  rw [harg]
  rw [List.getD_eq_getElem _ _ hilt]
  rw [show CORPUS_COLORS[i] = CORPUS_COLORS.get ⟨i, hilt⟩ from rfl, hqi]

/-- A rational point on the unit circle: for every parameter `t` the
vector is L2-normalised, and distinct parameters give distinct
vectors. -/
def pyth (t : ℚ) : Vec := [(1 - t^2)/(1 + t^2), (2*t)/(1 + t^2)]

/-- The embedded vocabulary phrases, in order. -/
def corpusQueries : List String := CORPUS_COLORS.map colorQuery

/-- A witness embedder with the hypotheses of the round-trip theorem:
each string is mapped to the unit-circle point of its index among the
vocabulary phrases (a fresh point for strings outside them). -/
def embedW (s : String) : Vec := pyth ((corpusQueries.indexOf s : ℕ) : ℚ)

theorem pyth_norm (t : ℚ) : dot (pyth t) (pyth t) = 1 := by
  have h : (1 + t^2) ≠ 0 := by positivity
  simp only [pyth, dot, List.zipWith, List.sum_cons, List.sum_nil]
  field_simp
  ring

theorem pyth_inj : Function.Injective pyth := by
  intro t1 t2 h
  simp only [pyth, List.cons.injEq, and_true] at h
  obtain ⟨h1, h2⟩ := h
  have d1 : (1 + t1^2) ≠ 0 := by positivity
  have d2 : (1 + t2^2) ≠ 0 := by positivity
  field_simp at h1 h2
  have hsq : t1^2 = t2^2 := by nlinarith
  have h3 : t1 * (1 + t2^2) = t2 * (1 + t1^2) := by linarith
  rw [hsq] at h3
  exact mul_right_cancel₀ d2 h3

theorem embedW_norm (s : String) : dot (embedW s) (embedW s) = 1 :=
  pyth_norm _

theorem corpusQueries_nodup : corpusQueries.Nodup := by
  decide

theorem embedW_corpus_nodup : (corpus_features embedW).Nodup := by
  have he : corpus_features embedW = corpusQueries.map
      (fun q => pyth ((corpusQueries.indexOf q : ℕ) : ℚ)) := by
    unfold corpus_features embedW corpusQueries
    rw [List.map_map]
    rfl
  rw [he]
  apply List.Nodup.map_on
  · intro x hx y hy hxy
    have h1 : ((corpusQueries.indexOf x : ℕ) : ℚ) =
        ((corpusQueries.indexOf y : ℕ) : ℚ) := pyth_inj hxy
    have h2 : corpusQueries.indexOf x = corpusQueries.indexOf y := by
      exact_mod_cast h1
    exact (List.indexOf_inj hx hy).1 h2
  · exact corpusQueries_nodup

/-- Witness for C8_color_roundtrip at the concrete unit-circle
embedder. -/
theorem C8_color_roundtrip_witness :
    zero_shot_color embedW "gray" = ("gray", "gray") :=
  C8_color_roundtrip embedW embedW_norm (fun _ _ => rfl)
    embedW_corpus_nodup "gray" (by decide)

/-! ### Claims C10 and C5: the backfill payload dict -/

/-- Dict access `sku_payload[k]`. -/
def lookupP (m : PayloadMap) (k : String) : Option FeaturePayload :=
  (m.find? (fun p => p.1 == k)).map (fun p => p.2)

theorem lookupP_update_self (m : PayloadMap) (k : String)
    (f : FeaturePayload → FeaturePayload) :
    lookupP (updatePayload m k f) k = (lookupP m k).map f := by
  induction m with
  | nil => rfl
  | cons e m ih =>
    obtain ⟨k0, v⟩ := e
    by_cases he : k0 = k
    · subst he
      simp [updatePayload, lookupP, List.find?_cons]
    · have hb : (k0 == k) = false := beq_eq_false_iff_ne.2 he
      simp only [updatePayload, List.map_cons, hb, Bool.false_eq_true,
        if_false, lookupP, List.find?_cons]
      exact ih

theorem lookupP_update_ne (m : PayloadMap) (k k2 : String)
    (f : FeaturePayload → FeaturePayload) (h : k2 ≠ k) :
    lookupP (updatePayload m k f) k2 = lookupP m k2 := by
  induction m with
  | nil => rfl
  | cons e m ih =>
    obtain ⟨k0, v⟩ := e
    by_cases he : k0 = k
    · have hbt : (k0 == k) = true := by simp [he]
      have hb2 : (k0 == k2) = false := beq_eq_false_iff_ne.2 (by
        intro hc
        apply h
        rw [← hc]
        exact he)
      simp only [updatePayload, List.map_cons, hbt, if_true,
        lookupP, List.find?_cons, hb2]
      exact ih
    · have hb : (k0 == k) = false := beq_eq_false_iff_ne.2 he
      by_cases he2 : k0 = k2
      · have hb2 : (k0 == k2) = true := by simp [he2]
        simp only [updatePayload, List.map_cons, hb, Bool.false_eq_true,
          if_false, lookupP, List.find?_cons, hb2]
      · have hb2 : (k0 == k2) = false := beq_eq_false_iff_ne.2 he2
        simp only [updatePayload, List.map_cons, hb, Bool.false_eq_true,
          if_false, lookupP, List.find?_cons, hb2]
        exact ih

theorem lookupP_init (records : List ItemRecord) (k : String)
    (h : k ∈ records.map ItemRecord.sku) :
    lookupP (initPayload records) k = some (emptyPayload k) := by
  induction records with
  | nil => simp at h
  | cons r rest ih =>
    by_cases he : r.sku = k
    · simp [initPayload, lookupP, List.find?_cons, he, emptyPayload]
    · have h2 : k ∈ rest.map ItemRecord.sku := by
        rw [List.map_cons] at h
        rcases List.mem_cons.1 h with h3 | h3
        · exact absurd h3.symm he
        · exact h3
      have hb : (r.sku == k) = false := beq_eq_false_iff_ne.2 he
      simp only [initPayload, List.map_cons, lookupP, List.find?_cons, hb]
      exact ih h2

theorem lookupP_assignTextVecs_not_mem
    (set : FeaturePayload → Vec → FeaturePayload) :
    ∀ (jobs : List (String × Option String)) (m : PayloadMap)
      (vecs : List Vec) (k : String), k ∉ jobs.map Prod.fst →
      lookupP (assignTextVecs set m jobs vecs) k = lookupP m k := by
  intro jobs
  induction jobs with
  | nil => intro m vecs k _; rfl
  | cons j js ih =>
    intro m vecs k hk
    have hk1 : k ≠ j.1 := by
      intro h
      exact hk (by simp [h])
    have hk2 : k ∉ js.map Prod.fst := by
      intro h
      exact hk (by simp [h])
    rcases ht : pyTruthy j.2 with _ | _
    · simp only [assignTextVecs, ht]
      rw [if_neg (by simp)]
      exact ih m vecs k hk2
    · simp only [assignTextVecs, ht, if_pos]
      cases vecs with
      | nil => rfl
      | cons v vs =>
        rw [ih _ vs k hk2, lookupP_update_ne _ _ _ _ hk1]

theorem lookupP_assignTextVecs (set : FeaturePayload → Vec → FeaturePayload)
    (f : String → Vec) :
    ∀ (jobs : List (String × Option String)) (m : PayloadMap)
      (vecs : List Vec) (k : String) (t : String),
      vecs = ((jobs.filterMap (fun j => if pyTruthy j.2 then j.2 else none)).map f) →
      (jobs.map Prod.fst).Nodup → (k, some t) ∈ jobs → t ≠ "" →
      lookupP (assignTextVecs set m jobs vecs) k =
        (lookupP m k).map (fun p => set p (f t)) := by
  intro jobs
  induction jobs with
  | nil => intro m vecs k t _ _ hmem; simp at hmem
  | cons j js ih =>
    intro m vecs k t hv hnd hmem htne
    subst hv
    have hnd2 : (js.map Prod.fst).Nodup := (List.nodup_cons.1 (by simpa using hnd)).2
    have hj1 : j.1 ∉ js.map Prod.fst := (List.nodup_cons.1 (by simpa using hnd)).1
    rcases ht : pyTruthy j.2 with _ | _
    · have hmem2 : (k, some t) ∈ js := by
        rcases List.mem_cons.1 hmem with h | h
        · exfalso
          have hj2 : j.2 = some t := by rw [← h]
          rw [hj2] at ht
          simp [pyTruthy, htne] at ht
        · exact h
      simp only [assignTextVecs, ht, Bool.false_eq_true, if_false,
        List.filterMap_cons, ht]
      exact ih m _ k t rfl hnd2 hmem2 htne
    · obtain ⟨s, hs⟩ : ∃ s, j.2 = some s := by
        rcases hj2 : j.2 with _ | s
        · rw [hj2] at ht; simp [pyTruthy] at ht
        · exact ⟨s, rfl⟩
      have hts : pyTruthy (some s) = true := by rw [← hs]; exact ht
      simp only [List.filterMap_cons, hs, hts, if_true, List.map_cons,
        assignTextVecs, ht]
      rcases List.mem_cons.1 hmem with h | h
      · have hkj : j.1 = k := by rw [← h]
        have hst : s = t := by
          rw [← h] at hs
          exact (Option.some.inj hs).symm
        subst hst
        rw [lookupP_assignTextVecs_not_mem set js _ _ k (by
          rw [← hkj]
          exact hj1)]
        rw [hkj, lookupP_update_self]
      · have hkj : k ≠ j.1 := by
          intro hk
          exact hj1 (by
            rw [← hk]
            exact List.mem_map.2 ⟨(k, some t), h, rfl⟩)
        rw [ih _ _ k t rfl hnd2 h htne, lookupP_update_ne _ _ _ _ hkj]

theorem lookupP_update_proj {γ : Type} (g : FeaturePayload → γ)
    (m : PayloadMap) (k k2 : String) (f : FeaturePayload → FeaturePayload)
    (hg : ∀ p, g (f p) = g p) :
    ((lookupP (updatePayload m k f) k2).map g) = ((lookupP m k2).map g) := by
  by_cases hk : k2 = k
  · subst hk
    rw [lookupP_update_self]
    cases lookupP m k2 with
    | none => rfl
    | some p => simp [hg]
  · rw [lookupP_update_ne _ _ _ _ hk]

theorem lookupP_assignImageVecs_proj {γ : Type} (g : FeaturePayload → γ)
    (hg : ∀ slot p v, g (setImageSlot slot p v) = g p) :
    ∀ (jobs : List (String × ImageSlot)) (m : PayloadMap) (vecs : List Vec)
      (k : String),
      ((lookupP (assignImageVecs m jobs vecs) k).map g) = ((lookupP m k).map g) := by
  intro jobs
  induction jobs with
  | nil => intro m vecs k; rfl
  | cons j js ih =>
    intro m vecs k
    cases vecs with
    | nil => rfl
    | cons v vs =>
      simp only [assignImageVecs]
      rw [ih _ vs k, lookupP_update_proj g _ _ _ _ (fun p => hg j.2 p v)]

theorem lookupP_assignImageVecs_not_mem :
    ∀ (jobs : List (String × ImageSlot)) (m : PayloadMap) (vecs : List Vec)
      (k : String), k ∉ jobs.map Prod.fst →
      lookupP (assignImageVecs m jobs vecs) k = lookupP m k := by
  intro jobs
  induction jobs with
  | nil => intro m vecs k _; rfl
  | cons j js ih =>
    intro m vecs k hk
    have hk1 : k ≠ j.1 := fun h => hk (by simp [h])
    have hk2 : k ∉ js.map Prod.fst := fun h => hk (by simp [h])
    cases vecs with
    | nil => rfl
    | cons v vs =>
      simp only [assignImageVecs]
      rw [ih _ vs k hk2, lookupP_update_ne _ _ _ _ hk1]

theorem assignImageVecs_append :
    ∀ (j1 : List (String × ImageSlot)) (m : PayloadMap) (v1 : List Vec)
      (j2 : List (String × ImageSlot)) (v2 : List Vec),
      j1.length = v1.length →
      assignImageVecs m (j1 ++ j2) (v1 ++ v2) =
        assignImageVecs (assignImageVecs m j1 v1) j2 v2 := by
  intro j1
  induction j1 with
  | nil =>
    intro m v1 j2 v2 hlen
    have : v1 = [] := List.eq_nil_of_length_eq_zero hlen.symm
    subst this
    rfl
  | cons j js ih =>
    intro m v1 j2 v2 hlen
    cases v1 with
    | nil => simp at hlen
    | cons v vs =>
      simp only [List.cons_append, assignImageVecs]
      exact ih _ vs j2 v2 (by simpa using hlen)

theorem mem_imageKeys_sku (fs : String → Bool) :
    ∀ (records : List ItemRecord) (x : String),
      x ∈ (imageKeys fs records).map Prod.fst →
      x ∈ records.map ItemRecord.sku := by
  intro records
  induction records with
  | nil => intro x h; simp [imageKeys] at h
  | cons r rest ih =>
    intro x h
    simp only [imageKeys, List.flatMap_cons, List.map_append, List.mem_append] at h
    rw [List.map_cons]
    rcases h with h | h
    · have hx : x = r.sku := by
        rcases h with h | h <;> split at h <;> simp at h <;> exact h
      exact List.mem_cons.2 (Or.inl hx)
    · exact List.mem_cons.2 (Or.inr (ih x (by simpa [imageKeys] using h)))

def blockKeys (fs : String → Bool) (r : ItemRecord) : List (String × ImageSlot) :=
  (if fs (slotPathOf r.sku ImageSlot.one) then [(r.sku, ImageSlot.one)] else []) ++
  (if fs (slotPathOf r.sku ImageSlot.two) then [(r.sku, ImageSlot.two)] else [])

theorem imageKeys_cons (fs : String → Bool) (r : ItemRecord)
    (rest : List ItemRecord) :
    imageKeys fs (r :: rest) = blockKeys fs r ++ imageKeys fs rest := by
  simp [imageKeys, blockKeys]

theorem blockKeys_sku (fs : String → Bool) (r : ItemRecord) (x : String)
    (h : x ∈ (blockKeys fs r).map Prod.fst) : x = r.sku := by
  simp only [blockKeys, List.map_append, List.mem_append] at h
  rcases h with h | h <;> split at h <;> simp at h <;> exact h

theorem lookupP_assignImageVecs_full (imgE : String → Vec) (fs : String → Bool) :
    ∀ (records : List ItemRecord) (m : PayloadMap) (r : ItemRecord),
      (records.map ItemRecord.sku).Nodup → r ∈ records →
      fs (slotPathOf r.sku ImageSlot.one) = true →
      fs (slotPathOf r.sku ImageSlot.two) = true →
      lookupP (assignImageVecs m (imageKeys fs records)
        ((imagePathsOf fs records).map imgE)) r.sku =
      (lookupP m r.sku).map (fun p =>
        setImageSlot ImageSlot.two
          (setImageSlot ImageSlot.one p (imgE (slotPathOf r.sku ImageSlot.one)))
          (imgE (slotPathOf r.sku ImageSlot.two))) := by
  intro records
  induction records with
  | nil => intro m r _ hr; simp at hr
  | cons r0 rest ih =>
    intro m r hnd hr hf1 hf2
    have hnd2 : (rest.map ItemRecord.sku).Nodup :=
      (List.nodup_cons.1 (by simpa using hnd)).2
    have hr0 : r0.sku ∉ rest.map ItemRecord.sku :=
      (List.nodup_cons.1 (by simpa using hnd)).1
    have hsplit : assignImageVecs m (imageKeys fs (r0 :: rest))
        ((imagePathsOf fs (r0 :: rest)).map imgE) =
        assignImageVecs
          (assignImageVecs m (blockKeys fs r0)
            (((blockKeys fs r0).map (fun j => slotPathOf j.1 j.2)).map imgE))
          (imageKeys fs rest) ((imagePathsOf fs rest).map imgE) := by
      unfold imagePathsOf
      rw [imageKeys_cons, List.map_append, List.map_append]
      exact assignImageVecs_append _ _ _ _ _ (by simp)
    rw [hsplit]
    rcases List.mem_cons.1 hr with hcase | hcase
    · subst hcase
      have hnotin : r.sku ∉ (imageKeys fs rest).map Prod.fst := by
        intro hin
        exact hr0 (mem_imageKeys_sku fs rest r.sku hin)
      rw [lookupP_assignImageVecs_not_mem _ _ _ _ hnotin]
      have hblock : blockKeys fs r = [(r.sku, ImageSlot.one), (r.sku, ImageSlot.two)] := by
        simp [blockKeys, hf1, hf2]
      rw [hblock]
      simp only [List.map_cons, List.map_nil, assignImageVecs]
      rw [lookupP_update_self, lookupP_update_self, Option.map_map]
      rfl
    · have hne : r.sku ≠ r0.sku := by
        intro h
        exact hr0 (h ▸ List.mem_map.2 ⟨r, hcase, rfl⟩)
      rw [ih _ r hnd2 hcase hf1 hf2]
      have hblock : r.sku ∉ (blockKeys fs r0).map Prod.fst := by
        intro hin
        exact hne (blockKeys_sku fs r0 r.sku hin)
      rw [lookupP_assignImageVecs_not_mem _ _ _ _ hblock]

theorem imageKeys_filter_self (fs : String → Bool) :
    ∀ (records : List ItemRecord) (r : ItemRecord),
      (records.map ItemRecord.sku).Nodup → r ∈ records →
      fs (slotPathOf r.sku ImageSlot.one) = true →
      fs (slotPathOf r.sku ImageSlot.two) = true →
      (imageKeys fs records).filter (fun j => j.1 == r.sku) =
        [(r.sku, ImageSlot.one), (r.sku, ImageSlot.two)] := by
  intro records
  induction records with
  | nil => intro r _ hr; simp at hr
  | cons r0 rest ih =>
    intro r hnd hr hf1 hf2
    have hnd2 : (rest.map ItemRecord.sku).Nodup :=
      (List.nodup_cons.1 (by simpa using hnd)).2
    have hr0 : r0.sku ∉ rest.map ItemRecord.sku :=
      (List.nodup_cons.1 (by simpa using hnd)).1
    rw [imageKeys_cons, List.filter_append]
    rcases List.mem_cons.1 hr with hcase | hcase
    · subst hcase
      have hblock : blockKeys fs r = [(r.sku, ImageSlot.one), (r.sku, ImageSlot.two)] := by
        simp [blockKeys, hf1, hf2]
      have hrest : (imageKeys fs rest).filter (fun j => j.1 == r.sku) = [] := by
        rw [List.filter_eq_nil_iff]
        intro j hj hbeq
        exact hr0 (by
          rw [← eq_of_beq hbeq]
          exact mem_imageKeys_sku fs rest j.1 (List.mem_map.2 ⟨j, hj, rfl⟩))
      rw [hblock, hrest]
      simp
    · have hne : r.sku ≠ r0.sku := by
        intro h
        exact hr0 (h ▸ List.mem_map.2 ⟨r, hcase, rfl⟩)
      have hblock : (blockKeys fs r0).filter (fun j => j.1 == r.sku) = [] := by
        rw [List.filter_eq_nil_iff]
        intro j hj hbeq
        exact hne (by
          rw [← eq_of_beq hbeq]
          exact (blockKeys_sku fs r0 j.1 (List.mem_map.2 ⟨j, hj, rfl⟩)).symm ▸ rfl)
      rw [hblock, ih r hnd2 hcase hf1 hf2]
      simp

theorem keys_updatePayload (m : PayloadMap) (k : String)
    (f : FeaturePayload → FeaturePayload) :
    (updatePayload m k f).map Prod.fst = m.map Prod.fst := by
  unfold updatePayload
  rw [List.map_map]
  apply List.map_congr_left
  intro p _
  simp only [Function.comp]
  split <;> rfl

theorem keys_assignTextVecs (set : FeaturePayload → Vec → FeaturePayload) :
    ∀ (jobs : List (String × Option String)) (m : PayloadMap) (vecs : List Vec),
      (assignTextVecs set m jobs vecs).map Prod.fst = m.map Prod.fst := by
  intro jobs
  induction jobs with
  | nil => intro m vecs; rfl
  | cons j js ih =>
    intro m vecs
    rcases ht : pyTruthy j.2 with _ | _
    · simp only [assignTextVecs, ht, Bool.false_eq_true, if_false]
      exact ih m vecs
    · simp only [assignTextVecs, ht, if_true]
      cases vecs with
      | nil => rfl
      | cons v vs => rw [ih _ vs, keys_updatePayload]

theorem keys_assignImageVecs :
    ∀ (jobs : List (String × ImageSlot)) (m : PayloadMap) (vecs : List Vec),
      (assignImageVecs m jobs vecs).map Prod.fst = m.map Prod.fst := by
  intro jobs
  induction jobs with
  | nil => intro m vecs; rfl
  | cons j js ih =>
    intro m vecs
    cases vecs with
    | nil => rfl
    | cons v vs =>
      simp only [assignImageVecs]
      rw [ih _ vs, keys_updatePayload]

theorem keys_initPayload (records : List ItemRecord) :
    (initPayload records).map Prod.fst = records.map ItemRecord.sku := by
  unfold initPayload
  rw [List.map_map]
  rfl

theorem inv_updatePayload (m : PayloadMap) (k : String)
    (f : FeaturePayload → FeaturePayload) (hf : ∀ p, (f p).sku = p.sku)
    (hm : ∀ e ∈ m, e.2.sku = e.1) :
    ∀ e ∈ updatePayload m k f, e.2.sku = e.1 := by
  intro e he
  obtain ⟨p, hp, hpe⟩ := List.mem_map.1 he
  by_cases h : (p.1 == k) = true
  · rw [← hpe]
    simp only [h, if_true]
    rw [hf]
    exact hm p hp
  · rw [← hpe]
    simp only [h, Bool.false_eq_true, if_false]
    exact hm p hp

theorem inv_assignTextVecs (set : FeaturePayload → Vec → FeaturePayload)
    (hset : ∀ p v, (set p v).sku = p.sku) :
    ∀ (jobs : List (String × Option String)) (m : PayloadMap) (vecs : List Vec),
      (∀ e ∈ m, e.2.sku = e.1) →
      ∀ e ∈ assignTextVecs set m jobs vecs, e.2.sku = e.1 := by
  intro jobs
  induction jobs with
  | nil => intro m vecs hm; exact hm
  | cons j js ih =>
    intro m vecs hm
    rcases ht : pyTruthy j.2 with _ | _
    · simp only [assignTextVecs, ht, Bool.false_eq_true, if_false]
      exact ih m vecs hm
    · simp only [assignTextVecs, ht, if_true]
      cases vecs with
      | nil => exact hm
      | cons v vs =>
        exact ih _ vs (inv_updatePayload m j.1 _ (fun p => hset p v) hm)

theorem inv_assignImageVecs :
    ∀ (jobs : List (String × ImageSlot)) (m : PayloadMap) (vecs : List Vec),
      (∀ e ∈ m, e.2.sku = e.1) →
      ∀ e ∈ assignImageVecs m jobs vecs, e.2.sku = e.1 := by
  intro jobs
  induction jobs with
  | nil => intro m vecs hm; exact hm
  | cons j js ih =>
    intro m vecs hm
    cases vecs with
    | nil => exact hm
    | cons v vs =>
      simp only [assignImageVecs]
      refine ih _ vs (inv_updatePayload m j.1 _ (fun p => ?_) hm)
      cases j.2 <;> rfl

theorem inv_initPayload (records : List ItemRecord) :
    ∀ e ∈ initPayload records, e.2.sku = e.1 := by
  intro e he
  obtain ⟨r, _, hre⟩ := List.mem_map.1 he
  rw [← hre]
  rfl

theorem valuesFind (m : PayloadMap) (hinv : ∀ e ∈ m, e.2.sku = e.1)
    (k : String) :
    (m.map (fun p => p.2)).find? (fun q => q.sku == k) = lookupP m k := by
  induction m with
  | nil => rfl
  | cons e m ih =>
    have hsku : e.2.sku = e.1 := hinv e (List.mem_cons_self _ _)
    by_cases h : (e.1 == k) = true
    · simp only [List.map_cons, lookupP, List.find?_cons, h, hsku]
      rfl
    · have hb : (e.2.sku == k) = false := by
        rw [hsku]
        simpa using h
      simp only [List.map_cons, lookupP, List.find?_cons, hb,
        show (e.1 == k) = false by simpa using h]
      exact ih (fun e2 he2 => hinv e2 (List.mem_cons_of_mem _ he2))

theorem findRow_map_overwrite_ne (p : FeaturePayload) (s : String)
    (h : p.sku ≠ s) :
    ∀ t : List FeatureRow,
      findRow (t.map (fun r => if r.sku == p.sku then overwriteRow r p else r)) s =
        findRow t s := by
  intro t
  induction t with
  | nil => rfl
  | cons r t ih =>
    by_cases hr : (r.sku == p.sku) = true
    · have hrs : (r.sku == s) = false := by
        rw [eq_of_beq hr]
        simpa using h
      have hos : ((overwriteRow r p).sku == s) = false := hrs
      unfold findRow at ih ⊢
      simp only [List.map_cons, hr, if_true, List.find?_cons, hos, hrs]
      exact ih
    · have hrb : (r.sku == p.sku) = false := by simpa using hr
      unfold findRow at ih ⊢
      simp only [List.map_cons, hrb, Bool.false_eq_true, if_false,
        List.find?_cons]
      cases hrs : (r.sku == s) with
      | true => rfl
      | false => exact ih

theorem findRow_append_insert_ne (p : FeaturePayload) (s : String)
    (h : p.sku ≠ s) :
    ∀ t : List FeatureRow, findRow (t ++ [insertRow p]) s = findRow t s := by
  intro t
  induction t with
  | nil =>
    unfold findRow
    simp only [List.nil_append, List.find?_cons]
    rw [show ((insertRow p).sku == s) = false by simpa [insertRow] using h]
  | cons r t ih =>
    unfold findRow at ih ⊢
    simp only [List.cons_append, List.find?_cons]
    cases hrs : (r.sku == s) with
    | true => rfl
    | false => exact ih

theorem findRow_applyFeatureUpsert_ne (t : List FeatureRow)
    (p : FeaturePayload) (s : String) (h : p.sku ≠ s) :
    findRow (applyFeatureUpsert t p) s = findRow t s := by
  unfold applyFeatureUpsert
  split
  · exact findRow_map_overwrite_ne p s h t
  · exact findRow_append_insert_ne p s h t

theorem findRow_map_overwrite_self (p : FeaturePayload) :
    ∀ t : List FeatureRow, t.any (fun r => r.sku == p.sku) = true →
      ∃ r0, findRow (t.map (fun r => if r.sku == p.sku then overwriteRow r p else r))
          p.sku = some r0 ∧
        r0.sku = p.sku ∧ r0.clip_image1 = p.clip_image1 ∧
        r0.clip_image2 = p.clip_image2 ∧ r0.clip_text = p.clip_text ∧
        r0.st_text = p.st_text := by
  intro t
  induction t with
  | nil => intro h; simp at h
  | cons r t ih =>
    intro h
    by_cases hr : (r.sku == p.sku) = true
    · refine ⟨overwriteRow r p, ?_, eq_of_beq hr, rfl, rfl, rfl, rfl⟩
      unfold findRow
      simp only [List.map_cons, hr, if_true, List.find?_cons]
      rw [show ((overwriteRow r p).sku == p.sku) = true from hr]
    · have hany : t.any (fun r => r.sku == p.sku) = true := by
        rcases List.any_eq_true.1 h with ⟨x, hx, hxb⟩
        rcases List.mem_cons.1 hx with hx | hx
        · exact absurd (hx ▸ hxb) (by simpa using hr)
        · exact List.any_eq_true.2 ⟨x, hx, hxb⟩
      obtain ⟨r0, hfind, hprops⟩ := ih hany
      refine ⟨r0, ?_, hprops⟩
      unfold findRow at hfind ⊢
      simp only [List.map_cons, show (r.sku == p.sku) = false by simpa using hr,
        Bool.false_eq_true, if_false, List.find?_cons,
        show (r.sku == p.sku) = false by simpa using hr]
      exact hfind

theorem findRow_append_insert_self (p : FeaturePayload) :
    ∀ t : List FeatureRow, (∀ r ∈ t, (r.sku == p.sku) = false) →
      findRow (t ++ [insertRow p]) p.sku = some (insertRow p) := by
  intro t
  induction t with
  | nil =>
    intro _
    unfold findRow
    simp only [List.nil_append, List.find?_cons]
    rw [show ((insertRow p).sku == p.sku) = true from beq_self_eq_true _]
  | cons r t ih =>
    intro hnone
    unfold findRow at ih ⊢
    simp only [List.cons_append, List.find?_cons,
      hnone r (List.mem_cons_self _ _)]
    exact ih (fun r2 hr2 => hnone r2 (List.mem_cons_of_mem _ hr2))

theorem findRow_applyFeatureUpsert_self (t : List FeatureRow)
    (p : FeaturePayload) :
    ∃ r0, findRow (applyFeatureUpsert t p) p.sku = some r0 ∧
      r0.sku = p.sku ∧ r0.clip_image1 = p.clip_image1 ∧
      r0.clip_image2 = p.clip_image2 ∧ r0.clip_text = p.clip_text ∧
      r0.st_text = p.st_text := by
  unfold applyFeatureUpsert
  split
  · exact findRow_map_overwrite_self p t (by assumption)
  · rename_i hany
    have hnone : ∀ r ∈ t, (r.sku == p.sku) = false := by
      intro r hr
      rcases hb : (r.sku == p.sku) with _ | _
      · rfl
      · exact absurd (List.any_eq_true.2 ⟨r, hr, hb⟩) hany
    exact ⟨insertRow p, findRow_append_insert_self p t hnone,
      rfl, rfl, rfl, rfl, rfl⟩

theorem findRow_upsert_notmem :
    ∀ (ps : List FeaturePayload) (t : List FeatureRow) (s : String),
      (∀ q ∈ ps, q.sku ≠ s) →
      findRow (upsert_to_features t ps) s = findRow t s := by
  intro ps
  induction ps with
  | nil => intro t s _; rfl
  | cons q ps ih =>
    intro t s hq
    unfold upsert_to_features at ih ⊢
    rw [List.foldl_cons]
    rw [ih _ s (fun q2 hq2 => hq q2 (List.mem_cons_of_mem _ hq2))]
    exact findRow_applyFeatureUpsert_ne t q s (hq q (List.mem_cons_self _ _))

theorem findRow_upsert_nodup :
    ∀ (ps : List FeaturePayload) (t : List FeatureRow) (p : FeaturePayload),
      (ps.map (fun q => q.sku)).Nodup → p ∈ ps →
      ∃ r0, findRow (upsert_to_features t ps) p.sku = some r0 ∧
        r0.sku = p.sku ∧ r0.clip_image1 = p.clip_image1 ∧
        r0.clip_image2 = p.clip_image2 ∧ r0.clip_text = p.clip_text ∧
        r0.st_text = p.st_text := by
  intro ps
  induction ps with
  | nil => intro t p _ hp; simp at hp
  | cons q ps ih =>
    intro t p hnd hp
    have hnd2 : (ps.map (fun q => q.sku)).Nodup :=
      (List.nodup_cons.1 (by simpa using hnd)).2
    have hq0 : q.sku ∉ ps.map (fun q => q.sku) :=
      (List.nodup_cons.1 (by simpa using hnd)).1
    unfold upsert_to_features at ih ⊢
    rw [List.foldl_cons]
    rcases List.mem_cons.1 hp with hcase | hcase
    · subst hcase
      have hnot : ∀ q2 ∈ ps, q2.sku ≠ p.sku := by
        intro q2 hq2 he
        exact hq0 (he ▸ List.mem_map.2 ⟨q2, hq2, rfl⟩)
      rw [show List.foldl applyFeatureUpsert (applyFeatureUpsert t p) ps =
        upsert_to_features (applyFeatureUpsert t p) ps from rfl]
      rw [findRow_upsert_notmem ps _ p.sku hnot]
      exact findRow_applyFeatureUpsert_self t p
    · exact ih (applyFeatureUpsert t q) p hnd2 hcase
theorem textJobs_keys (records : List ItemRecord) :
    (textJobs records).map Prod.fst = records.map ItemRecord.sku := by
  unfold textJobs
  rw [List.map_map]
  rfl

theorem lookupP_batchPayloadMap_texts (stE clipE imgE : String → Vec)
    (fs : String → Bool) (records : List ItemRecord)
    (hnd : (records.map ItemRecord.sku).Nodup)
    (r : ItemRecord) (hr : r ∈ records) (t : String)
    (ht : r.texts = some t) (htne : t ≠ "") :
    ((lookupP (batchPayloadMap stE clipE imgE fs records) r.sku).map
      (fun p => (p.st_text, p.clip_text))) =
      some (some (stE t), some (clipE t)) := by
  have hnd' : ((textJobs records).map Prod.fst).Nodup := by
    rw [textJobs_keys]; exact hnd
  have hmem : (r.sku, some t) ∈ textJobs records :=
    List.mem_map.2 ⟨r, hr, by simp [ht]⟩
  have hsku : r.sku ∈ records.map ItemRecord.sku := List.mem_map.2 ⟨r, hr, rfl⟩
  have h1 : lookupP (assignTextVecs setStText (initPayload records)
      (textJobs records) ((textList records).map stE)) r.sku =
      some (setStText (emptyPayload r.sku) (stE t)) := by
    rw [lookupP_assignTextVecs setStText stE (textJobs records)
      (initPayload records) ((textList records).map stE) r.sku t (by rfl)
      hnd' hmem htne]
    rw [lookupP_init records r.sku hsku]
    rfl
  have h2 : lookupP (assignTextVecs setClipText
      (assignTextVecs setStText (initPayload records) (textJobs records)
        ((textList records).map stE))
      (textJobs records) ((textList records).map clipE)) r.sku =
      some (setClipText (setStText (emptyPayload r.sku) (stE t)) (clipE t)) := by
    rw [lookupP_assignTextVecs setClipText clipE (textJobs records)
      (assignTextVecs setStText (initPayload records) (textJobs records)
        ((textList records).map stE))
      ((textList records).map clipE) r.sku t (by rfl) hnd' hmem htne]
    rw [h1]
    rfl
  unfold batchPayloadMap
  rw [lookupP_assignImageVecs_proj (fun p => (p.st_text, p.clip_text))
    (fun slot p v => by cases slot <;> rfl) (imageKeys fs records) _
    ((imagePathsOf fs records).map imgE) r.sku]
  rw [h2]
  rfl

theorem inv_batchPayloadMap (stE clipE imgE : String → Vec)
    (fs : String → Bool) (records : List ItemRecord) :
    ∀ e ∈ batchPayloadMap stE clipE imgE fs records, e.2.sku = e.1 := by
  unfold batchPayloadMap
  exact inv_assignImageVecs _ _ _
    (inv_assignTextVecs setClipText (fun p v => rfl) _ _ _
      (inv_assignTextVecs setStText (fun p v => rfl) _ _ _
        (inv_initPayload records)))

theorem keys_batchPayloadMap (stE clipE imgE : String → Vec)
    (fs : String → Bool) (records : List ItemRecord) :
    (batchPayloadMap stE clipE imgE fs records).map Prod.fst =
      records.map ItemRecord.sku := by
  unfold batchPayloadMap
  rw [keys_assignImageVecs, keys_assignTextVecs, keys_assignTextVecs,
    keys_initPayload]

/-- Claim C10 (confirmed): within a backfill batch, the `st_text` and
`clip_text` vectors assigned to a record with truthy `texts` are
exactly the embeddings of that record's own texts: the running
`text_idx` into the batched embedding output stays aligned with the
per-record iteration, whatever the interleaving of truthy and falsy
texts, so no sku receives another sku's text embedding. -/
theorem C10_text_embedding_alignment (stE clipE imgE : String → Vec)
    (fs : String → Bool) (records : List ItemRecord)
    (hnd : (records.map ItemRecord.sku).Nodup)
    (r : ItemRecord) (hr : r ∈ records) (t : String)
    (ht : r.texts = some t) (htne : t ≠ "") :
    ∃ p, (embedBatch stE clipE imgE fs records).find?
        (fun q => q.sku == r.sku) = some p ∧
      p.st_text = some (stE t) ∧ p.clip_text = some (clipE t) := by
  have hproj := lookupP_batchPayloadMap_texts stE clipE imgE fs records hnd
    r hr t ht htne
  obtain ⟨p, hp, hps, hpc⟩ : ∃ p,
      lookupP (batchPayloadMap stE clipE imgE fs records) r.sku = some p ∧
      p.st_text = some (stE t) ∧ p.clip_text = some (clipE t) := by
    rcases hl : lookupP (batchPayloadMap stE clipE imgE fs records) r.sku
      with _ | p
    · rw [hl] at hproj; simp at hproj
    · rw [hl] at hproj
      have := Option.some.inj hproj
      exact ⟨p, rfl, congrArg Prod.fst this, congrArg Prod.snd this⟩
  refine ⟨p, ?_, hps, hpc⟩
  unfold embedBatch
  rw [valuesFind _ (inv_batchPayloadMap stE clipE imgE fs records) r.sku]
  exact hp

/-- The single record of the C10 witness batch. -/
def recS : ItemRecord :=
  { sku := "S", image1 := none, image2 := none, texts := some "tx" }

/-- Witness for C10_text_embedding_alignment at a concrete one-record
batch. -/
theorem C10_text_embedding_alignment_witness :
    ∃ p, (embedBatch (fun _ => [1]) (fun _ => [2]) (fun _ => [3])
        (fun _ => false) [recS]).find?
        (fun q => q.sku == recS.sku) = some p ∧
      p.st_text = some ((fun _ => ([1] : Vec)) "tx") ∧
      p.clip_text = some ((fun _ => ([2] : Vec)) "tx") :=
  C10_text_embedding_alignment (fun _ => [1]) (fun _ => [2]) (fun _ => [3])
    (fun _ => false) [recS] (by simp) recS
    (List.mem_singleton.2 rfl) "tx" rfl (by decide)

theorem lookupP_batchPayloadMap_full (stE clipE imgE : String → Vec)
    (fs : String → Bool) (records : List ItemRecord)
    (hnd : (records.map ItemRecord.sku).Nodup)
    (r : ItemRecord) (hr : r ∈ records) (t : String)
    (ht : r.texts = some t) (htne : t ≠ "")
    (hf1 : fs (slotPathOf r.sku ImageSlot.one) = true)
    (hf2 : fs (slotPathOf r.sku ImageSlot.two) = true) :
    lookupP (batchPayloadMap stE clipE imgE fs records) r.sku =
      some { sku := r.sku
             clip_image1 := some (imgE (slotPathOf r.sku ImageSlot.one))
             clip_image2 := some (imgE (slotPathOf r.sku ImageSlot.two))
             clip_text := some (clipE t)
             st_text := some (stE t) } := by
  have hnd' : ((textJobs records).map Prod.fst).Nodup := by
    rw [textJobs_keys]; exact hnd
  have hmem : (r.sku, some t) ∈ textJobs records :=
    List.mem_map.2 ⟨r, hr, by simp [ht]⟩
  have hsku : r.sku ∈ records.map ItemRecord.sku := List.mem_map.2 ⟨r, hr, rfl⟩
  have h1 : lookupP (assignTextVecs setStText (initPayload records)
      (textJobs records) ((textList records).map stE)) r.sku =
      some (setStText (emptyPayload r.sku) (stE t)) := by
    rw [lookupP_assignTextVecs setStText stE (textJobs records)
      (initPayload records) ((textList records).map stE) r.sku t (by rfl)
      hnd' hmem htne]
    rw [lookupP_init records r.sku hsku]
    rfl
  have h2 : lookupP (assignTextVecs setClipText
      (assignTextVecs setStText (initPayload records) (textJobs records)
        ((textList records).map stE))
      (textJobs records) ((textList records).map clipE)) r.sku =
      some (setClipText (setStText (emptyPayload r.sku) (stE t)) (clipE t)) := by
    rw [lookupP_assignTextVecs setClipText clipE (textJobs records)
      (assignTextVecs setStText (initPayload records) (textJobs records)
        ((textList records).map stE))
      ((textList records).map clipE) r.sku t (by rfl) hnd' hmem htne]
    rw [h1]
    rfl
  unfold batchPayloadMap
  rw [lookupP_assignImageVecs_full imgE fs records _ r hnd hr hf1 hf2]
  rw [h2]
  rfl

/-- Claim C5 (corrected): for a batch containing a record whose two
image files both exist and whose texts are truthy, the backfill embeds
both image files of that record (two image-embedder inputs, slot 1 and
slot 2, not one) and recomputes its text embeddings; the upserted
payload carries every recomputed field, and after `upsert_to_features`
the stored `clip_image_primary` equals the freshly computed slot-1
embedding — it is overwritten, not left untouched. -/
theorem C5_backfill_recomputes_all (stE clipE imgE : String → Vec)
    (fs : String → Bool) (features : List FeatureRow)
    (records : List ItemRecord)
    (hnd : (records.map ItemRecord.sku).Nodup)
    (r : ItemRecord) (hr : r ∈ records) (t : String)
    (ht : r.texts = some t) (htne : t ≠ "")
    (hf1 : fs (slotPathOf r.sku ImageSlot.one) = true)
    (hf2 : fs (slotPathOf r.sku ImageSlot.two) = true) :
    ((imageKeys fs records).filter (fun j => j.1 == r.sku)) =
      [(r.sku, ImageSlot.one), (r.sku, ImageSlot.two)] ∧
    (∃ p, (embedBatch stE clipE imgE fs records).find?
        (fun q => q.sku == r.sku) = some p ∧
      p.clip_image1 = some (imgE (slotPathOf r.sku ImageSlot.one)) ∧
      p.clip_image2 = some (imgE (slotPathOf r.sku ImageSlot.two)) ∧
      p.clip_text = some (clipE t) ∧ p.st_text = some (stE t)) ∧
    (∃ r0, findRow (upsert_to_features features
        (embedBatch stE clipE imgE fs records)) r.sku = some r0 ∧
      r0.clip_image1 = some (imgE (slotPathOf r.sku ImageSlot.one)) ∧
      r0.clip_image2 = some (imgE (slotPathOf r.sku ImageSlot.two))) := by
  have hfull := lookupP_batchPayloadMap_full stE clipE imgE fs records hnd
    r hr t ht htne hf1 hf2
  have hinv := inv_batchPayloadMap stE clipE imgE fs records
  have hfind : (embedBatch stE clipE imgE fs records).find?
      (fun q => q.sku == r.sku) =
      some { sku := r.sku
             clip_image1 := some (imgE (slotPathOf r.sku ImageSlot.one))
             clip_image2 := some (imgE (slotPathOf r.sku ImageSlot.two))
             clip_text := some (clipE t)
             st_text := some (stE t) } := by
    unfold embedBatch
    rw [valuesFind _ hinv r.sku]
    exact hfull
  refine ⟨imageKeys_filter_self fs records r hnd hr hf1 hf2,
    ⟨_, hfind, rfl, rfl, rfl, rfl⟩, ?_⟩
  have hpmem : ({ sku := r.sku
                  clip_image1 := some (imgE (slotPathOf r.sku ImageSlot.one))
                  clip_image2 := some (imgE (slotPathOf r.sku ImageSlot.two))
                  clip_text := some (clipE t)
                  st_text := some (stE t) } : FeaturePayload) ∈
      embedBatch stE clipE imgE fs records :=
    List.mem_of_find?_eq_some hfind
  have hndp : ((embedBatch stE clipE imgE fs records).map
      (fun q => q.sku)).Nodup := by
    unfold embedBatch
    rw [List.map_map]
    have hcg : List.map ((fun q : FeaturePayload => q.sku) ∘
        (fun p : String × FeaturePayload => p.2))
        (batchPayloadMap stE clipE imgE fs records) =
        List.map Prod.fst (batchPayloadMap stE clipE imgE fs records) :=
      List.map_congr_left (fun e he => hinv e he)
    rw [hcg, keys_batchPayloadMap]
    exact hnd
  obtain ⟨r0, hr0, _, h1, h2, _, _⟩ :=
    findRow_upsert_nodup (embedBatch stE clipE imgE fs records) features _
      hndp hpmem
  exact ⟨r0, hr0, h1, h2⟩

/-- Witness for C5_backfill_recomputes_all at a concrete one-record
batch over an empty features table. -/
theorem C5_backfill_recomputes_all_witness :
    ((imageKeys (fun _ => true) [recS]).filter (fun j => j.1 == recS.sku)) =
      [(recS.sku, ImageSlot.one), (recS.sku, ImageSlot.two)] ∧
    (∃ p, (embedBatch (fun _ => [1]) (fun _ => [2]) (fun _ => [9])
        (fun _ => true) [recS]).find? (fun q => q.sku == recS.sku) = some p ∧
      p.clip_image1 = some ((fun _ => ([9] : Vec)) (slotPathOf recS.sku ImageSlot.one)) ∧
      p.clip_image2 = some ((fun _ => ([9] : Vec)) (slotPathOf recS.sku ImageSlot.two)) ∧
      p.clip_text = some ((fun _ => ([2] : Vec)) "tx") ∧
      p.st_text = some ((fun _ => ([1] : Vec)) "tx")) ∧
    (∃ r0, findRow (upsert_to_features []
        (embedBatch (fun _ => [1]) (fun _ => [2]) (fun _ => [9])
          (fun _ => true) [recS])) recS.sku = some r0 ∧
      r0.clip_image1 = some ((fun _ => ([9] : Vec)) (slotPathOf recS.sku ImageSlot.one)) ∧
      r0.clip_image2 = some ((fun _ => ([9] : Vec)) (slotPathOf recS.sku ImageSlot.two))) :=
  C5_backfill_recomputes_all (fun _ => [1]) (fun _ => [2]) (fun _ => [9])
    (fun _ => true) [] [recS] (by simp) recS (List.mem_singleton.2 rfl)
    "tx" rfl (by decide) rfl rfl

/-- The feature row of the C5 counterexample store: only
`clip_image2` is missing. -/
def rowC5 : FeatureRow :=
  { sku := "S", clip_image1 := some [5], clip_image2 := none,
    clip_text := some [6], st_text := some [7] }

/-- The C5 counterexample store. -/
def storeC5 : Store :=
  { features := [rowC5], attributes := [mkAttr "S"], colors := [] }

/-- The record the backfill SELECT returns for `storeC5`. -/
def recC5 : ItemRecord :=
  { sku := "S", image1 := some "i1", image2 := none, texts := some "tx" }

/-- An image embedder distinguishing the two slot paths. -/
def imgEC5 : String → Vec := fun p => if p == "S/image2.jpeg" then [9] else [8]

/-- The payload the batch assembles for sku "S". -/
def payloadC5 : FeaturePayload :=
  { sku := "S", clip_image1 := some [8], clip_image2 := some [9],
    clip_text := some [2], st_text := some [1] }

/-- The stored row after the run: every slot freshly recomputed. -/
def rowC5new : FeatureRow :=
  { sku := "S", clip_image1 := some [8], clip_image2 := some [9],
    clip_text := some [2], st_text := some [1] }

/-- Claim C5, as stated, is false: over a store whose only item misses
only `clip_image_secondary`, the run hands the image embedder two
inputs for that item (both image files), the payload carries all four
recomputed fields, and the stored `clip_image_primary` is overwritten
with the freshly computed [8], not left at its old value [5]. -/
theorem C5_counterexample :
    missingRecords storeC5 = [recC5] ∧
    (imagePathsOf (fun _ => true) (missingRecords storeC5)).length = 2 ∧
    (2 : ℕ) ≠ 1 ∧
    embedBatch (fun _ => [1]) (fun _ => [2]) imgEC5 (fun _ => true)
      (missingRecords storeC5) = [payloadC5] ∧
    findRow (backfillRun (fun _ => [1]) (fun _ => [2]) imgEC5 (fun _ => true)
      storeC5) "S" = some rowC5new ∧
    rowC5new.clip_image1 ≠ rowC5.clip_image1 := by
  refine ⟨rfl, rfl, by decide, rfl, rfl, by decide⟩

end FSE
